import Mathlib

/-!
# Event decoder and outbound transform of `main.go`

A shallow embedding of `EventData.UnmarshalJSON`, of the worker goroutine (the
`WebhookData` construction, the outbound request, the wait group) and of the
handler of `POST /receive-json`.

* A Go `string` is a sequence of bytes: `len(key)`, `key[:4]`, `key[4:]` and
  `"atrv"+index` all work on bytes, so keys and values are `List UInt8`.
* `map[string]interface{}` is a list of entries.  The list order is the order in
  which `for key, value := range m` visits the entries (Go leaves it
  unspecified), and `m[k]` is `JMap.get`.  A Go map has pairwise distinct
  keys; theorems that need this say so with `JMap.keys m` being `Nodup`.
* A run-time panic (failed type assertion, slice bounds out of range) and the
  error returned by `json.Unmarshal` are the `Failure` side of `Except`.
* The worker is a step function on its state (status, wait-group counter,
  requests posted so far); what `client.Do` meets and what `BodyParser` returns
  are inputs of the model.
-/

namespace GoInterview

/-- A Go string: its bytes. -/
abbrev GoString := List UInt8

/-- The bytes of a string literal of the source (Go source text is UTF-8). -/
def bytes (s : String) : GoString := s.toUTF8.data.toList

/-- A decoded JSON value, as `json.Unmarshal` stores it in an `interface{}`:
`nil`, `bool`, `float64` (its 64 bits), `string`, `[]interface{}`,
`map[string]interface{}`. -/
inductive JVal where
  | null : JVal
  | bool (b : Bool) : JVal
  | num (bits : Nat) : JVal
  | str (s : GoString) : JVal
  | arr (xs : List JVal) : JVal
  | obj (kvs : List (GoString × JVal)) : JVal

/-- The entries of a `map[string]interface{}`, in the order `range` visits them. -/
abbrev JMap := List (GoString × JVal)

/-- The keys of a map, in visiting order. -/
def JMap.keys (m : JMap) : List GoString := m.map Prod.fst

/-- The map index expression `m[k]`; `none` is the nil interface of a missing key. -/
def JMap.get : JMap → GoString → Option JVal
  | [], _ => none
  | (k', v) :: rest, k => if k' = k then some v else JMap.get rest k

/-- The struct `Trait`; `Typ` is its field `Type`. -/
structure Trait where
  Value : GoString
  Typ : GoString
  deriving DecidableEq

/-- A `map[string]Trait`: entries with pairwise distinct keys. -/
abbrev TraitMap := List (GoString × Trait)

/-- The map index expression `t[k]` on a `map[string]Trait`. -/
def TraitMap.get : TraitMap → GoString → Option Trait
  | [], _ => none
  | (k', v) :: rest, k => if k' = k then some v else TraitMap.get rest k

/-- The map assignment `t[k] = v`: an existing entry for `k` is overwritten. -/
def TraitMap.set (t : TraitMap) (k : GoString) (v : Trait) : TraitMap :=
  (k, v) :: t.filter (fun p => decide (p.1 ≠ k))

/-- The struct `EventData`. -/
structure EventData where
  Ev : GoString
  Et : GoString
  ID : GoString
  UID : GoString
  MID : GoString
  T : GoString
  P : GoString
  L : GoString
  Sc : GoString
  Attr : TraitMap
  UAttr : TraitMap
  deriving DecidableEq

/-- The struct `WebhookData`; the JSON names of its fields are `event`,
`event_type`, `app_id`, `user_id`, `message_id`, `page_title`, `page_url`,
`browser_language`, `screen_size`, `attributes`, `traits`. -/
structure WebhookData where
  Ev : GoString
  Et : GoString
  ID : GoString
  UID : GoString
  MID : GoString
  T : GoString
  P : GoString
  L : GoString
  Sc : GoString
  Attr : TraitMap
  UAttr : TraitMap
  deriving DecidableEq

/-- The ways `UnmarshalJSON` does not return `nil`: the error of the inner
`json.Unmarshal`, the panic of a failed `.(string)`, the panic of a slice
expression past the end of the key. -/
inductive Failure where
  | unmarshalError : Failure
  | typeAssertion : Failure
  | sliceBounds : Failure
  deriving DecidableEq

deriving instance DecidableEq for Except

/-- The type assertion `x.(string)` on an `interface{}`; a nil interface (missing
key or JSON `null`) and every non-string value panic. -/
def assertString : Option JVal → Except Failure GoString
  | some (JVal.str s) => Except.ok s
  | _ => Except.error Failure.typeAssertion

/-- The inner `json.Unmarshal(data, &m)` with `m` a `map[string]interface{}`:
an object fills the map, `null` leaves it nil (no entries), every other JSON
value is an error. -/
def unmarshalMap : JVal → Except Failure JMap
  | JVal.obj kvs => Except.ok kvs
  | JVal.null => Except.ok []
  | _ => Except.error Failure.unmarshalError

/-- One iteration of the loop of `UnmarshalJSON` (lines 74-96) on the entry
`(key, value)`, with `e` the receiver so far. -/
def step (m : JMap) (e : EventData) (kv : GoString × JVal) : Except Failure EventData :=
  if kv.1.length < 4 then Except.ok e
  else if kv.1.take 4 = bytes "atrk" then
    match assertString (some kv.2) with
    | Except.error f => Except.error f
    | Except.ok traitKey =>
      match assertString (m.get (bytes "atrv" ++ kv.1.drop 4)) with
      | Except.error f => Except.error f
      | Except.ok v =>
        match assertString (m.get (bytes "atrt" ++ kv.1.drop 4)) with
        | Except.error f => Except.error f
        | Except.ok t => Except.ok { e with Attr := e.Attr.set traitKey ⟨v, t⟩ }
  else if kv.1.length < 5 then Except.error Failure.sliceBounds
  else if kv.1.take 5 = bytes "uatrk" then
    match assertString (some kv.2) with
    | Except.error f => Except.error f
    | Except.ok traitKey =>
      match assertString (m.get (bytes "uatrv" ++ kv.1.drop 5)) with
      | Except.error f => Except.error f
      | Except.ok v =>
        match assertString (m.get (bytes "uatrt" ++ kv.1.drop 5)) with
        | Except.error f => Except.error f
        | Except.ok t => Except.ok { e with UAttr := e.UAttr.set traitKey ⟨v, t⟩ }
  else Except.ok e

/-- The loop `for key, value := range m` over the entries still to visit. -/
def loop (m : JMap) : List (GoString × JVal) → EventData → Except Failure EventData
  | [], e => Except.ok e
  | kv :: rest, e =>
    match step m e kv with
    | Except.error f => Except.error f
    | Except.ok e' => loop m rest e'

/-- The body of `UnmarshalJSON` after the map is filled (lines 58-98): the nine
type assertions in source order, the two fresh maps, the loop. -/
def decodeMap (m : JMap) : Except Failure EventData :=
  match assertString (m.get (bytes "ev")) with
  | Except.error f => Except.error f
  | Except.ok ev =>
  match assertString (m.get (bytes "et")) with
  | Except.error f => Except.error f
  | Except.ok et =>
  match assertString (m.get (bytes "id")) with
  | Except.error f => Except.error f
  | Except.ok id =>
  match assertString (m.get (bytes "uid")) with
  | Except.error f => Except.error f
  | Except.ok uid =>
  match assertString (m.get (bytes "mid")) with
  | Except.error f => Except.error f
  | Except.ok mid =>
  match assertString (m.get (bytes "t")) with
  | Except.error f => Except.error f
  | Except.ok t =>
  match assertString (m.get (bytes "p")) with
  | Except.error f => Except.error f
  | Except.ok p =>
  match assertString (m.get (bytes "l")) with
  | Except.error f => Except.error f
  | Except.ok l =>
  match assertString (m.get (bytes "sc")) with
  | Except.error f => Except.error f
  | Except.ok sc =>
    loop m m
      { Ev := ev, Et := et, ID := id, UID := uid, MID := mid, T := t, P := p, L := l,
        Sc := sc, Attr := [], UAttr := [] }

/-- The method `(*EventData).UnmarshalJSON` on the JSON value its argument holds. -/
def UnmarshalJSON (data : JVal) : Except Failure EventData :=
  match unmarshalMap data with
  | Except.error f => Except.error f
  | Except.ok m => decodeMap m

/-- The `WebhookData` literal the worker builds from the decoded `EventData`
(lines 136-148). -/
def toWebhookData (eventData : EventData) : WebhookData :=
  { Ev := eventData.Ev
    Et := eventData.Et
    ID := eventData.ID
    UID := eventData.UID
    MID := eventData.MID
    T := eventData.T
    P := eventData.P
    L := eventData.L
    Sc := eventData.Sc
    Attr := eventData.Attr
    UAttr := eventData.UAttr }

/-- The nine required fields of the scenarios of the specification. -/
def basePayload : JMap :=
  [ (bytes "ev", JVal.str (bytes "click")), (bytes "et", JVal.str (bytes "ui")),
    (bytes "id", JVal.str (bytes "a1")), (bytes "uid", JVal.str (bytes "u1")),
    (bytes "mid", JVal.str (bytes "m1")), (bytes "t", JVal.str (bytes "Home")),
    (bytes "p", JVal.str (bytes "http://x")), (bytes "l", JVal.str (bytes "en")),
    (bytes "sc", JVal.str (bytes "1920x1080")) ]

/-- The event the nine required fields of `basePayload` decode to, with the given maps. -/
def baseEvent (attr uattr : TraitMap) : EventData :=
  { Ev := bytes "click", Et := bytes "ui", ID := bytes "a1", UID := bytes "u1",
    MID := bytes "m1", T := bytes "Home", P := bytes "http://x", L := bytes "en",
    Sc := bytes "1920x1080", Attr := attr, UAttr := uattr }

/-- The payload of Scenario A: an attribute triple with index token `0`. -/
def scenarioA : JMap :=
  basePayload ++
    [ (bytes "atrk0", JVal.str (bytes "color")), (bytes "atrv0", JVal.str (bytes "red")),
      (bytes "atrt0", JVal.str (bytes "string")) ]

/-- Two attribute triples, index tokens `0` and `1`, that carry the same trait
name `color`. -/
def collidingPayload : JMap :=
  basePayload ++
    [ (bytes "atrk0", JVal.str (bytes "color")), (bytes "atrv0", JVal.str (bytes "red")),
      (bytes "atrt0", JVal.str (bytes "string")),
      (bytes "atrk1", JVal.str (bytes "color")), (bytes "atrv1", JVal.str (bytes "blue")),
      (bytes "atrt1", JVal.str (bytes "string")) ]

/-- Two user-trait triples, index tokens `0` and `1`, that carry the same trait
name `plan`. -/
def collidingUserPayload : JMap :=
  basePayload ++
    [ (bytes "uatrk0", JVal.str (bytes "plan")), (bytes "uatrv0", JVal.str (bytes "free")),
      (bytes "uatrt0", JVal.str (bytes "string")),
      (bytes "uatrk1", JVal.str (bytes "plan")), (bytes "uatrv1", JVal.str (bytes "pro")),
      (bytes "uatrt1", JVal.str (bytes "string")) ]

/-- The payload of Scenario A with the empty index token: keys `atrk`, `atrv`, `atrt`. -/
def emptyIndexPayload : JMap :=
  basePayload ++
    [ (bytes "atrk", JVal.str (bytes "color")), (bytes "atrv", JVal.str (bytes "red")),
      (bytes "atrt", JVal.str (bytes "string")) ]

/-- A payload made of the nine required keys only, holding as strings the nine
scalar fields of `d` (the two maps of `d` play no part). -/
def requiredPayload (d : EventData) : JMap :=
  [ (bytes "ev", JVal.str d.Ev), (bytes "et", JVal.str d.Et), (bytes "id", JVal.str d.ID),
    (bytes "uid", JVal.str d.UID), (bytes "mid", JVal.str d.MID), (bytes "t", JVal.str d.T),
    (bytes "p", JVal.str d.P), (bytes "l", JVal.str d.L), (bytes "sc", JVal.str d.Sc) ]

/-- The nine required fields plus one attribute triple `atrk<i> = n`,
`atrv<i> = v`, `atrt<i> = ty`. -/
def attributePayload (d : EventData) (i n v ty : GoString) : JMap :=
  requiredPayload d ++
    [ (bytes "atrk" ++ i, JVal.str n), (bytes "atrv" ++ i, JVal.str v),
      (bytes "atrt" ++ i, JVal.str ty) ]

/-- The nine required fields plus one user-trait triple `uatrk<i> = n`,
`uatrv<i> = v`, `uatrt<i> = ty`. -/
def userTraitPayload (d : EventData) (i n v ty : GoString) : JMap :=
  requiredPayload d ++
    [ (bytes "uatrk" ++ i, JVal.str n), (bytes "uatrv" ++ i, JVal.str v),
      (bytes "uatrt" ++ i, JVal.str ty) ]

/-- A key on which an iteration of the loop does nothing: it begins with neither
`atrk` nor `uatrk` and is not exactly four bytes long. -/
def ignoredKey (k : GoString) : Prop :=
  k.take 4 ≠ bytes "atrk" ∧ k.take 5 ≠ bytes "uatrk" ∧ k.length ≠ 4

/-- Two decoded events with the same content: equal scalar fields, and maps that
hold the same trait at every key. -/
def EventData.sameContent (a b : EventData) : Prop :=
  a.Ev = b.Ev ∧ a.Et = b.Et ∧ a.ID = b.ID ∧ a.UID = b.UID ∧ a.MID = b.MID ∧ a.T = b.T ∧
  a.P = b.P ∧ a.L = b.L ∧ a.Sc = b.Sc ∧
  (∀ n, a.Attr.get n = b.Attr.get n) ∧ (∀ n, a.UAttr.get n = b.UAttr.get n)

/-- Scenario A with the number `7` (as a float64) at `atrv0`. -/
def numericValuePayload : JMap :=
  basePayload ++
    [ (bytes "atrk0", JVal.str (bytes "color")), (bytes "atrv0", JVal.num 0x401C000000000000),
      (bytes "atrt0", JVal.str (bytes "string")) ]

/-- The nine required fields with a user-trait triple whose name, at `uatrk0`, is
the boolean `true`. -/
def booleanNamePayload : JMap :=
  basePayload ++
    [ (bytes "uatrk0", JVal.bool true), (bytes "uatrv0", JVal.str (bytes "pro")),
      (bytes "uatrt0", JVal.str (bytes "string")) ]

/-! ### The worker goroutine -/

/-- The zero value of `EventData`, which `var eventData EventData` declares: nine
empty strings and two nil maps (a nil map has no entries). -/
def zeroEventData : EventData :=
  { Ev := [], Et := [], ID := [], UID := [], MID := [], T := [], P := [], L := [], Sc := [],
    Attr := [], UAttr := [] }

/-- The worker's `json.Unmarshal(jsonBytes, &eventData)` (line 133), with
`jsonBytes` the JSON text of the dequeued value `data`: the value of `eventData`
afterwards.  The returned error is discarded by the worker, so when
`UnmarshalJSON` returns an error `eventData` keeps its zero value; a panic is
not an error and goes on up the goroutine. -/
def unmarshalDiscardingError (data : JVal) : Except Failure EventData :=
  match UnmarshalJSON data with
  | Except.ok e => Except.ok e
  | Except.error Failure.unmarshalError => Except.ok zeroEventData
  | Except.error Failure.typeAssertion => Except.error Failure.typeAssertion
  | Except.error Failure.sliceBounds => Except.error Failure.sliceBounds

/-- What `client.Do(req)` returns for the outbound request of one item: a
response, whatever its status code, with a nil error; or an error (no
connection, timeout). -/
inductive Delivery where
  | response (statusCode : Nat) : Delivery
  | networkError : Delivery
  deriving DecidableEq

/-- Where the worker goroutine stands: waiting on the channel for the next item,
or ended with the whole process by a panic of `UnmarshalJSON`, by
`log.Fatal` after an error of `client.Do`, or by the panic of `wg.Done()` on a
counter that becomes negative. -/
inductive WorkerStatus where
  | idle : WorkerStatus
  | panicked (f : Failure) : WorkerStatus
  | fatal : WorkerStatus
  | negativeCounter : WorkerStatus
  deriving DecidableEq

/-- The state of the worker: its status, the counter of the `sync.WaitGroup` and
the bodies of the outbound POST requests handed to `client.Do` so far. -/
structure Worker where
  status : WorkerStatus
  wg : Int
  posts : List WebhookData
  deriving DecidableEq

/-- The worker when it starts to read the channel: `wg.Add(1)` was called once
(line 125), nothing was posted. -/
def initialWorker : Worker := { status := WorkerStatus.idle, wg := 1, posts := [] }

/-- The call `wg.Done()` (line 169): the counter goes down by one, and a
counter below zero panics. -/
def wgDone (w : Worker) : Worker :=
  if w.wg - 1 < 0 then { w with wg := w.wg - 1, status := WorkerStatus.negativeCounter }
  else { w with wg := w.wg - 1 }

/-- One iteration of `for data := range workerChannel` (lines 128-170) on the
dequeued value `data`, with `net` what `client.Do` meets.  `json.Marshal` of a
decoded JSON value and `http.NewRequest` on the constant URL do not fail. -/
def workerItem (w : Worker) (data : JVal) (net : Delivery) : Worker :=
  match w.status with
  | WorkerStatus.idle =>
    match unmarshalDiscardingError data with
    | Except.error f => { w with status := WorkerStatus.panicked f }
    | Except.ok eventData =>
      match net with
      | Delivery.networkError =>
        { w with posts := w.posts ++ [toWebhookData eventData], status := WorkerStatus.fatal }
      | Delivery.response _ =>
        wgDone { w with posts := w.posts ++ [toWebhookData eventData] }
  | _ => w

/-- The worker over the items it receives, each with what its outbound request
meets. -/
def runWorker (w : Worker) : List (JVal × Delivery) → Worker
  | [] => w
  | item :: rest => runWorker (workerItem w item.1 item.2) rest

/-! ### The handler of `POST /receive-json` -/

/-- What the handler answers: the status code, and the JSON body it sets with
`c.JSON` (none when it only calls `c.SendStatus`). -/
structure Response where
  status : Nat
  body : Option JVal

/-- The handler of `POST /receive-json` (lines 109-122).  `parsed` is what
`c.BodyParser(&jsonData)` leaves: `none` when it returns an error, the parsed
value otherwise; `queue` is what was sent on `workerChannel` and not yet
received.  The result is the answer and the queue afterwards;
`fiber.StatusBadRequest` is 400 and `fiber.StatusOK` is 200. -/
def receiveJson (parsed : Option JVal) (queue : List JVal) : Response × List JVal :=
  match parsed with
  | none =>
    ({ status := 400,
       body := some (JVal.obj [(bytes "error", JVal.str (bytes "Cannot parse JSON"))]) },
      queue)
  | some jsonData => ({ status := 200, body := none }, queue ++ [jsonData])

/-! ### The outbound wire format

`json.Marshal(webhookData)` (line 151) is modelled by the JSON value it writes,
after the documentation of `encoding/json`: a struct is an object with one
member per field, named by the field's tag; a string is coerced to valid
UTF-8, each invalid byte replaced by U+FFFD; a nil map is `null`; a made map is
an object with one member per entry, the keys sorted.  The escapes of the text
(`<`, `>`, `&`, control characters) denote the characters they stand for and
are not modelled. -/

/-- Whether the byte `b` lies between `lo` and `hi`. -/
def byteIn (lo hi : Nat) (b : UInt8) : Bool :=
  decide (lo ≤ b.toNat) && decide (b.toNat ≤ hi)

/-- The size that `utf8.DecodeRuneInString` reports at the head of `s` when a
well-formed UTF-8 sequence starts there, and 0 when it reports
`(RuneError, 1)`: a first byte that starts no sequence, a second byte outside
the range the first one accepts (no overlong form, no surrogate, nothing
above U+10FFFF), a later byte that is no continuation byte, or a sequence cut
short by the end of the string. -/
def runeSize : GoString → Nat
  | [] => 0
  | b0 :: rest =>
    if b0.toNat < 0x80 then 1
    else if byteIn 0xC2 0xDF b0 then
      match rest with
      | b1 :: _ => if byteIn 0x80 0xBF b1 then 2 else 0
      | _ => 0
    else if byteIn 0xE0 0xEF b0 then
      match rest with
      | b1 :: b2 :: _ =>
        if byteIn (if b0.toNat = 0xE0 then 0xA0 else 0x80)
            (if b0.toNat = 0xED then 0x9F else 0xBF) b1 && byteIn 0x80 0xBF b2 then 3
        else 0
      | _ => 0
    else if byteIn 0xF0 0xF4 b0 then
      match rest with
      | b1 :: b2 :: b3 :: _ =>
        if byteIn (if b0.toNat = 0xF0 then 0x90 else 0x80)
            (if b0.toNat = 0xF4 then 0x8F else 0xBF) b1 && byteIn 0x80 0xBF b2
            && byteIn 0x80 0xBF b3 then 4
        else 0
      | _ => 0
    else 0

/-- Whether a string is valid UTF-8; `pending` counts the bytes still to pass of
a sequence already checked at its first byte. -/
def validUTF8From : Nat → GoString → Bool
  | _, [] => true
  | pending + 1, _ :: rest => validUTF8From pending rest
  | 0, b :: rest => decide (runeSize (b :: rest) ≠ 0) && validUTF8From (runeSize (b :: rest) - 1) rest

/-- Whether a Go string is valid UTF-8. -/
def validUTF8 (s : GoString) : Bool := validUTF8From 0 s

/-- The bytes of U+FFFD, the Unicode replacement character. -/
def replacementChar : GoString := [0xEF, 0xBF, 0xBD]

/-- The coercion of a string to valid UTF-8 by `json.Marshal`: a well-formed
sequence is kept, every other byte is replaced by U+FFFD; `pending` counts the
bytes still to copy of a sequence already checked. -/
def coerceUTF8From : Nat → GoString → GoString
  | _, [] => []
  | pending + 1, b :: rest => b :: coerceUTF8From pending rest
  | 0, b :: rest =>
    if runeSize (b :: rest) = 0 then replacementChar ++ coerceUTF8From 0 rest
    else b :: coerceUTF8From (runeSize (b :: rest) - 1) rest

/-- The string a JSON reader finds where `json.Marshal` wrote the Go string `s`. -/
def coerceUTF8 (s : GoString) : GoString := coerceUTF8From 0 s

/-- The JSON value `json.Marshal` writes for a Go string. -/
def marshalString (s : GoString) : JVal := JVal.str (coerceUTF8 s)

/-- The JSON value `json.Marshal` writes for a `Trait`: an object with the
members `value` and `type`, the tags of its two fields (lines 15-18). -/
def marshalTrait (t : Trait) : JVal :=
  JVal.obj [(bytes "value", marshalString t.Value), (bytes "type", marshalString t.Typ)]

/-- The entries of a map in the order `json.Marshal` writes them: sorted by key,
byte by byte. -/
def sortByKey (t : TraitMap) : TraitMap :=
  t.insertionSort (fun a b => a.1 ≤ b.1)

/-- The JSON value `json.Marshal` writes for a field of type `map[string]Trait`.
`TraitMap` does not tell the nil map (the zero value, as in `zeroEventData`)
from a made map without entries, so `isNil` says which it is: the nil map is
written `null`, a made map is an object with one member per entry. -/
def marshalTraitMap (isNil : Bool) (t : TraitMap) : JVal :=
  if isNil then JVal.null
  else JVal.obj ((sortByKey t).map (fun p => (coerceUTF8 p.1, marshalTrait p.2)))

/-- The JSON value `json.Marshal(webhookData)` writes (line 151): an object with
one member per field of `WebhookData`, named by the field's tag (lines 36-48;
the tags of `Attr` and `UAttr` are `attributes` and `traits`, so both maps are
written, whatever the comment behind them says).  `attrNil` and `uattrNil` say
whether the two maps are nil. -/
def marshalWebhookData (attrNil uattrNil : Bool) (w : WebhookData) : JVal :=
  JVal.obj
    [ (bytes "event", marshalString w.Ev), (bytes "event_type", marshalString w.Et),
      (bytes "app_id", marshalString w.ID), (bytes "user_id", marshalString w.UID),
      (bytes "message_id", marshalString w.MID), (bytes "page_title", marshalString w.T),
      (bytes "page_url", marshalString w.P), (bytes "browser_language", marshalString w.L),
      (bytes "screen_size", marshalString w.Sc),
      (bytes "attributes", marshalTraitMap attrNil w.Attr),
      (bytes "traits", marshalTraitMap uattrNil w.UAttr) ]

/-- Modelled from the spec: reading a member that the outbound schema declares a
string; the repository has no reader of the outbound body. -/
def parseString : Option JVal → Option GoString
  | some (JVal.str s) => some s
  | _ => none

/-- Modelled from the spec: reading a trait `{value, type}` of the outbound
schema (section 6); the repository has no reader of the outbound body. -/
def parseTrait : JVal → Option Trait
  | JVal.obj kvs =>
    match parseString (JMap.get kvs (bytes "value")), parseString (JMap.get kvs (bytes "type")) with
    | some v, some t => some { Value := v, Typ := t }
    | _, _ => none
  | _ => none

/-- Modelled from the spec: reading the members `name: {value, type}` of a map of
the outbound schema, one entry per member; the repository has no reader of the
outbound body. -/
def parseTraitEntries : List (GoString × JVal) → Option TraitMap
  | [] => some []
  | kv :: rest =>
    match parseTrait kv.2, parseTraitEntries rest with
    | some t, some r => some ((kv.1, t) :: r)
    | _, _ => none

/-- Modelled from the spec: reading `attributes` or `traits` of the outbound
schema: an object gives one entry per member and `null` gives the map without
entries; the repository has no reader of the outbound body. -/
def parseTraitMap : Option JVal → Option TraitMap
  | some (JVal.obj kvs) => parseTraitEntries kvs
  | some JVal.null => some []
  | _ => none

/-- Modelled from the spec: parsing an outbound body against the outbound schema
of section 6, `{event, event_type, app_id, user_id, message_id, page_title,
page_url, browser_language, screen_size, attributes, traits}`, each member
read by its name; the repository only writes this body and has no reader of
it. -/
def parseWebhookData : JVal → Option WebhookData
  | JVal.obj kvs =>
    match parseString (JMap.get kvs (bytes "event")),
      parseString (JMap.get kvs (bytes "event_type")),
      parseString (JMap.get kvs (bytes "app_id")),
      parseString (JMap.get kvs (bytes "user_id")),
      parseString (JMap.get kvs (bytes "message_id")),
      parseString (JMap.get kvs (bytes "page_title")),
      parseString (JMap.get kvs (bytes "page_url")),
      parseString (JMap.get kvs (bytes "browser_language")),
      parseString (JMap.get kvs (bytes "screen_size")),
      parseTraitMap (JMap.get kvs (bytes "attributes")),
      parseTraitMap (JMap.get kvs (bytes "traits")) with
    | some ev, some et, some id, some uid, some mid, some t, some p, some l, some sc,
      some attr, some uattr =>
      some { Ev := ev, Et := et, ID := id, UID := uid, MID := mid, T := t, P := p, L := l,
             Sc := sc, Attr := attr, UAttr := uattr }
    | _, _, _, _, _, _, _, _, _, _, _ => none
  | _ => none

/-- Every string of a `WebhookData` is valid UTF-8: the nine fields and, in both
maps, the keys, the values and the types. -/
def WebhookData.validStrings (w : WebhookData) : Prop :=
  validUTF8 w.Ev = true ∧ validUTF8 w.Et = true ∧ validUTF8 w.ID = true ∧
  validUTF8 w.UID = true ∧ validUTF8 w.MID = true ∧ validUTF8 w.T = true ∧
  validUTF8 w.P = true ∧ validUTF8 w.L = true ∧ validUTF8 w.Sc = true ∧
  (∀ p ∈ w.Attr, validUTF8 p.1 = true ∧ validUTF8 p.2.Value = true ∧
    validUTF8 p.2.Typ = true) ∧
  (∀ p ∈ w.UAttr, validUTF8 p.1 = true ∧ validUTF8 p.2.Value = true ∧
    validUTF8 p.2.Typ = true)

/-- A `WebhookData` whose field `Ev` is the single byte `0xFF`, which is not
valid UTF-8; every other string is empty and both maps are made and empty. -/
def invalidUTF8Event : WebhookData :=
  { Ev := [0xFF], Et := [], ID := [], UID := [], MID := [], T := [], P := [], L := [],
    Sc := [], Attr := [], UAttr := [] }

/-- The nine keys `UnmarshalJSON` reads with a type assertion before the loop. -/
def requiredKeys : List GoString :=
  [bytes "ev", bytes "et", bytes "id", bytes "uid", bytes "mid", bytes "t", bytes "p",
    bytes "l", bytes "sc"]

/-! ## Type assertions and the nine required fields -/

theorem assertString_ok_iff {x : Option JVal} {s : GoString} :
    assertString x = Except.ok s ↔ x = some (JVal.str s) := by
  unfold assertString
  split
  · simp
  · rename_i h
    constructor
    · intro h'
      cases h'
    · intro h'
      exact absurd h' (by intro hx; exact h _ hx)

theorem assertString_error {x : Option JVal} {f : Failure} (h : assertString x = Except.error f) :
    f = Failure.typeAssertion := by
  unfold assertString at h
  split at h
  · cases h
  · cases h
    rfl

theorem assertString_not_str {x : Option JVal} (h : ∀ s, x ≠ some (JVal.str s)) :
    assertString x = Except.error Failure.typeAssertion := by
  unfold assertString
  split
  · rename_i s
    exact absurd rfl (h s)
  · rfl

theorem decodeMap_ok {m : JMap} {e : EventData} (h : decodeMap m = Except.ok e) :
    ∃ ev et id uid mid t p l sc,
      m.get (bytes "ev") = some (JVal.str ev) ∧ m.get (bytes "et") = some (JVal.str et) ∧
      m.get (bytes "id") = some (JVal.str id) ∧ m.get (bytes "uid") = some (JVal.str uid) ∧
      m.get (bytes "mid") = some (JVal.str mid) ∧ m.get (bytes "t") = some (JVal.str t) ∧
      m.get (bytes "p") = some (JVal.str p) ∧ m.get (bytes "l") = some (JVal.str l) ∧
      m.get (bytes "sc") = some (JVal.str sc) ∧
      loop m m { Ev := ev, Et := et, ID := id, UID := uid, MID := mid, T := t, P := p,
                 L := l, Sc := sc, Attr := [], UAttr := [] } = Except.ok e := by
  unfold decodeMap at h
  rcases h1 : assertString (m.get (bytes "ev")) with f | ev
  · simp [h1] at h
  rcases h2 : assertString (m.get (bytes "et")) with f | et
  · simp [h1, h2] at h
  rcases h3 : assertString (m.get (bytes "id")) with f | id
  · simp [h1, h2, h3] at h
  rcases h4 : assertString (m.get (bytes "uid")) with f | uid
  · simp [h1, h2, h3, h4] at h
  rcases h5 : assertString (m.get (bytes "mid")) with f | mid
  · simp [h1, h2, h3, h4, h5] at h
  rcases h6 : assertString (m.get (bytes "t")) with f | t
  · simp [h1, h2, h3, h4, h5, h6] at h
  rcases h7 : assertString (m.get (bytes "p")) with f | p
  · simp [h1, h2, h3, h4, h5, h6, h7] at h
  rcases h8 : assertString (m.get (bytes "l")) with f | l
  · simp [h1, h2, h3, h4, h5, h6, h7, h8] at h
  rcases h9 : assertString (m.get (bytes "sc")) with f | sc
  · simp [h1, h2, h3, h4, h5, h6, h7, h8, h9] at h
  simp only [h1, h2, h3, h4, h5, h6, h7, h8, h9] at h
  exact ⟨ev, et, id, uid, mid, t, p, l, sc, assertString_ok_iff.1 h1, assertString_ok_iff.1 h2,
    assertString_ok_iff.1 h3, assertString_ok_iff.1 h4, assertString_ok_iff.1 h5,
    assertString_ok_iff.1 h6, assertString_ok_iff.1 h7, assertString_ok_iff.1 h8,
    assertString_ok_iff.1 h9, h⟩

theorem decodeMap_of_gets {m : JMap} {ev et id uid mid t p l sc : GoString}
    (h1 : m.get (bytes "ev") = some (JVal.str ev)) (h2 : m.get (bytes "et") = some (JVal.str et))
    (h3 : m.get (bytes "id") = some (JVal.str id)) (h4 : m.get (bytes "uid") = some (JVal.str uid))
    (h5 : m.get (bytes "mid") = some (JVal.str mid)) (h6 : m.get (bytes "t") = some (JVal.str t))
    (h7 : m.get (bytes "p") = some (JVal.str p)) (h8 : m.get (bytes "l") = some (JVal.str l))
    (h9 : m.get (bytes "sc") = some (JVal.str sc)) :
    decodeMap m =
      loop m m { Ev := ev, Et := et, ID := id, UID := uid, MID := mid, T := t, P := p,
                 L := l, Sc := sc, Attr := [], UAttr := [] } := by
  unfold decodeMap
  simp only [h1, h2, h3, h4, h5, h6, h7, h8, h9, assertString]

/-! ## Prefixes of keys -/

theorem bytes_atrk : bytes "atrk" = [97, 116, 114, 107] := by decide

theorem bytes_atrv : bytes "atrv" = [97, 116, 114, 118] := by decide

theorem bytes_atrt : bytes "atrt" = [97, 116, 114, 116] := by decide

theorem bytes_uatrk : bytes "uatrk" = [117, 97, 116, 114, 107] := by decide

theorem bytes_uatrv : bytes "uatrv" = [117, 97, 116, 114, 118] := by decide

theorem bytes_uatrt : bytes "uatrt" = [117, 97, 116, 114, 116] := by decide

theorem length_of_take4 {k : GoString} (h : k.take 4 = bytes "atrk") : ¬ k.length < 4 := by
  intro hlt
  have hl : (k.take 4).length = 4 := by rw [h, bytes_atrk]; rfl
  rw [List.length_take] at hl
  omega

theorem length_of_take5 {k : GoString} (h : k.take 5 = bytes "uatrk") : ¬ k.length < 5 := by
  intro hlt
  have hl : (k.take 5).length = 5 := by rw [h, bytes_uatrk]; rfl
  rw [List.length_take] at hl
  omega

theorem not_take4_of_take5 {k : GoString} (h : k.take 5 = bytes "uatrk") :
    k.take 4 ≠ bytes "atrk" := by
  intro h4
  have h' : (k.take 5).take 4 = k.take 4 := by
    rw [List.take_take]
    rfl
  rw [h, h4, bytes_uatrk, bytes_atrk] at h'
  revert h'
  decide

/-! ## One iteration of the loop -/

theorem step_atrk {m : JMap} {e : EventData} {k : GoString} {n v t : GoString}
    (hk : k.take 4 = bytes "atrk")
    (hv : m.get (bytes "atrv" ++ k.drop 4) = some (JVal.str v))
    (ht : m.get (bytes "atrt" ++ k.drop 4) = some (JVal.str t)) :
    step m e (k, JVal.str n) = Except.ok { e with Attr := e.Attr.set n ⟨v, t⟩ } := by
  unfold step
  simp only [length_of_take4 hk, hk, hv, ht, assertString, if_true, if_false]

theorem step_uatrk {m : JMap} {e : EventData} {k : GoString} {n v t : GoString}
    (hk : k.take 5 = bytes "uatrk")
    (hv : m.get (bytes "uatrv" ++ k.drop 5) = some (JVal.str v))
    (ht : m.get (bytes "uatrt" ++ k.drop 5) = some (JVal.str t)) :
    step m e (k, JVal.str n) = Except.ok { e with UAttr := e.UAttr.set n ⟨v, t⟩ } := by
  unfold step
  have h4 : ¬ k.length < 4 := fun h => length_of_take5 hk (by omega)
  simp only [h4, not_take4_of_take5 hk, length_of_take5 hk, hk, hv, ht, assertString, if_true,
    if_false]

theorem step_ignored {m : JMap} {e : EventData} {k : GoString} {x : JVal}
    (h4 : k.take 4 ≠ bytes "atrk") (h5 : k.take 5 ≠ bytes "uatrk") (hl : k.length ≠ 4) :
    step m e (k, x) = Except.ok e := by
  unfold step
  by_cases hlt : k.length < 4
  · simp only [hlt, if_true]
  · have h5' : ¬ k.length < 5 := by omega
    simp only [hlt, h4, h5, h5', if_false]

theorem step_len4 {m : JMap} {e : EventData} {k : GoString} {x : JVal}
    (h4 : k.take 4 ≠ bytes "atrk") (hl : k.length = 4) :
    step m e (k, x) = Except.error Failure.sliceBounds := by
  unfold step
  have h1 : ¬ k.length < 4 := by omega
  have h2 : k.length < 5 := by omega
  simp only [h1, h4, h2, if_true, if_false]

theorem step_ok_cases {m : JMap} {e e' : EventData} {kv : GoString × JVal}
    (h : step m e kv = Except.ok e') :
    (kv.1.take 4 = bytes "atrk" ∧ ∃ n v t, kv.2 = JVal.str n ∧
        m.get (bytes "atrv" ++ kv.1.drop 4) = some (JVal.str v) ∧
        m.get (bytes "atrt" ++ kv.1.drop 4) = some (JVal.str t) ∧
        e' = { e with Attr := e.Attr.set n ⟨v, t⟩ }) ∨
    (kv.1.take 4 ≠ bytes "atrk" ∧ kv.1.take 5 = bytes "uatrk" ∧ ∃ n v t, kv.2 = JVal.str n ∧
        m.get (bytes "uatrv" ++ kv.1.drop 5) = some (JVal.str v) ∧
        m.get (bytes "uatrt" ++ kv.1.drop 5) = some (JVal.str t) ∧
        e' = { e with UAttr := e.UAttr.set n ⟨v, t⟩ }) ∨
    (kv.1.take 4 ≠ bytes "atrk" ∧ kv.1.take 5 ≠ bytes "uatrk" ∧ kv.1.length ≠ 4 ∧ e' = e) := by
  obtain ⟨k, x⟩ := kv
  by_cases h4 : k.take 4 = bytes "atrk"
  · left
    refine ⟨h4, ?_⟩
    unfold step at h
    simp only [length_of_take4 h4, h4, if_true, if_false] at h
    rcases h1 : assertString (some x) with f | n
    · simp [h1] at h
    rcases h2 : assertString (m.get (bytes "atrv" ++ k.drop 4)) with f | v
    · simp [h1, h2] at h
    rcases h3 : assertString (m.get (bytes "atrt" ++ k.drop 4)) with f | t
    · simp [h1, h2, h3] at h
    simp only [h1, h2, h3] at h
    refine ⟨n, v, t, ?_, assertString_ok_iff.1 h2, assertString_ok_iff.1 h3, ?_⟩
    · have := assertString_ok_iff.1 h1
      simpa using this
    · cases h
      rfl
  · right
    by_cases h5 : k.take 5 = bytes "uatrk"
    · left
      refine ⟨h4, h5, ?_⟩
      unfold step at h
      have hl4 : ¬ k.length < 4 := fun h => length_of_take5 h5 (by omega)
      simp only [hl4, length_of_take5 h5, h4, h5, if_true, if_false] at h
      rcases h1 : assertString (some x) with f | n
      · simp [h1] at h
      rcases h2 : assertString (m.get (bytes "uatrv" ++ k.drop 5)) with f | v
      · simp [h1, h2] at h
      rcases h3 : assertString (m.get (bytes "uatrt" ++ k.drop 5)) with f | t
      · simp [h1, h2, h3] at h
      simp only [h1, h2, h3] at h
      refine ⟨n, v, t, ?_, assertString_ok_iff.1 h2, assertString_ok_iff.1 h3, ?_⟩
      · have := assertString_ok_iff.1 h1
        simpa using this
      · cases h
        rfl
    · right
      refine ⟨h4, h5, ?_⟩
      by_cases hl : k.length = 4
      · rw [step_len4 h4 hl] at h
        cases h
      · rw [step_ignored h4 h5 hl] at h
        cases h
        exact ⟨hl, rfl⟩

theorem decodeMap_cases (m : JMap) :
    decodeMap m = Except.error Failure.typeAssertion ∨
    ∃ ev et id uid mid t p l sc,
      m.get (bytes "ev") = some (JVal.str ev) ∧ m.get (bytes "et") = some (JVal.str et) ∧
      m.get (bytes "id") = some (JVal.str id) ∧ m.get (bytes "uid") = some (JVal.str uid) ∧
      m.get (bytes "mid") = some (JVal.str mid) ∧ m.get (bytes "t") = some (JVal.str t) ∧
      m.get (bytes "p") = some (JVal.str p) ∧ m.get (bytes "l") = some (JVal.str l) ∧
      m.get (bytes "sc") = some (JVal.str sc) ∧
      decodeMap m =
        loop m m { Ev := ev, Et := et, ID := id, UID := uid, MID := mid, T := t, P := p,
                   L := l, Sc := sc, Attr := [], UAttr := [] } := by
  rcases h1 : assertString (m.get (bytes "ev")) with f | ev
  · left; unfold decodeMap; cases assertString_error h1; simp only [h1]
  rcases h2 : assertString (m.get (bytes "et")) with f | et
  · left; unfold decodeMap; cases assertString_error h2; simp only [h1, h2]
  rcases h3 : assertString (m.get (bytes "id")) with f | id
  · left; unfold decodeMap; cases assertString_error h3; simp only [h1, h2, h3]
  rcases h4 : assertString (m.get (bytes "uid")) with f | uid
  · left; unfold decodeMap; cases assertString_error h4; simp only [h1, h2, h3, h4]
  rcases h5 : assertString (m.get (bytes "mid")) with f | mid
  · left; unfold decodeMap; cases assertString_error h5; simp only [h1, h2, h3, h4, h5]
  rcases h6 : assertString (m.get (bytes "t")) with f | t
  · left; unfold decodeMap; cases assertString_error h6; simp only [h1, h2, h3, h4, h5, h6]
  rcases h7 : assertString (m.get (bytes "p")) with f | p
  · left; unfold decodeMap; cases assertString_error h7; simp only [h1, h2, h3, h4, h5, h6, h7]
  rcases h8 : assertString (m.get (bytes "l")) with f | l
  · left; unfold decodeMap; cases assertString_error h8
    simp only [h1, h2, h3, h4, h5, h6, h7, h8]
  rcases h9 : assertString (m.get (bytes "sc")) with f | sc
  · left; unfold decodeMap; cases assertString_error h9
    simp only [h1, h2, h3, h4, h5, h6, h7, h8, h9]
  right
  have g1 := assertString_ok_iff.1 h1
  have g2 := assertString_ok_iff.1 h2
  have g3 := assertString_ok_iff.1 h3
  have g4 := assertString_ok_iff.1 h4
  have g5 := assertString_ok_iff.1 h5
  have g6 := assertString_ok_iff.1 h6
  have g7 := assertString_ok_iff.1 h7
  have g8 := assertString_ok_iff.1 h8
  have g9 := assertString_ok_iff.1 h9
  exact ⟨ev, et, id, uid, mid, t, p, l, sc, g1, g2, g3, g4, g5, g6, g7, g8, g9,
    decodeMap_of_gets g1 g2 g3 g4 g5 g6 g7 g8 g9⟩

/-! ## Maps -/

theorem JMap.mem_of_get {m : JMap} {k : GoString} {x : JVal} (h : m.get k = some x) :
    (k, x) ∈ m := by
  induction m with
  | nil => simp [JMap.get] at h
  | cons p rest ih =>
    obtain ⟨k', v⟩ := p
    unfold JMap.get at h
    by_cases hk : k' = k
    · simp only [hk, if_true, Option.some.injEq] at h
      subst hk
      subst h
      exact List.mem_cons_self _ _
    · simp only [hk, if_false] at h
      exact List.mem_cons_of_mem _ (ih h)

theorem JMap.get_of_mem {m : JMap} {k : GoString} {x : JVal} (hnd : (JMap.keys m).Nodup)
    (h : (k, x) ∈ m) : m.get k = some x := by
  induction m with
  | nil => cases h
  | cons p rest ih =>
    obtain ⟨k', v⟩ := p
    simp only [JMap.keys, List.map_cons, List.nodup_cons] at hnd
    unfold JMap.get
    rcases List.mem_cons.1 h with heq | hmem
    · cases heq
      simp
    · have hne : k' ≠ k := by
        intro hk
        subst hk
        exact hnd.1 (List.mem_map_of_mem Prod.fst hmem)
      simp only [hne, if_false]
      exact ih hnd.2 hmem

theorem JMap.get_perm {m₁ m₂ : JMap} (hp : m₁.Perm m₂) (hnd : (JMap.keys m₁).Nodup)
    (k : GoString) : m₁.get k = m₂.get k := by
  have hnd₂ : (JMap.keys m₂).Nodup := (hp.map Prod.fst).nodup_iff.1 hnd
  cases h₁ : m₁.get k with
  | some x =>
    exact (JMap.get_of_mem hnd₂ (hp.subset (JMap.mem_of_get h₁))).symm
  | none =>
    cases h₂ : m₂.get k with
    | none => rfl
    | some y =>
      have := JMap.get_of_mem hnd (hp.symm.subset (JMap.mem_of_get h₂))
      rw [h₁] at this
      cases this

theorem TraitMap.get_filter_ne (t : TraitMap) {k k' : GoString} (h : k' ≠ k) :
    TraitMap.get (t.filter (fun p => decide (p.1 ≠ k'))) k = TraitMap.get t k := by
  induction t with
  | nil => rfl
  | cons p rest ih =>
    obtain ⟨a, v⟩ := p
    by_cases ha : a = k'
    · subst ha
      simp only [List.filter, ne_eq, not_true_eq_false, decide_False, TraitMap.get, h, if_false]
      exact ih
    · simp only [List.filter, ne_eq, ha, not_false_eq_true, decide_True, TraitMap.get]
      by_cases hak : a = k
      · simp only [hak, if_true]
      · simp only [hak, if_false]
        exact ih

theorem TraitMap.get_set_self (t : TraitMap) (k : GoString) (v : Trait) :
    (t.set k v).get k = some v := by
  simp [TraitMap.set, TraitMap.get]

theorem TraitMap.get_set_ne (t : TraitMap) {k k' : GoString} (v : Trait) (h : k' ≠ k) :
    (t.set k' v).get k = t.get k := by
  simp only [TraitMap.set, TraitMap.get, h, if_false]
  exact TraitMap.get_filter_ne t h

/-! ## The loop -/

theorem loop_cons_ok {m : JMap} {kv : GoString × JVal} {rest : List (GoString × JVal)}
    {e e' : EventData} (h : loop m (kv :: rest) e = Except.ok e') :
    ∃ e₁, step m e kv = Except.ok e₁ ∧ loop m rest e₁ = Except.ok e' := by
  simp only [loop] at h
  rcases hs : step m e kv with f | e₁
  · simp [hs] at h
  · simp only [hs] at h
    exact ⟨e₁, rfl, h⟩

theorem loop_cons_of_step {m : JMap} {kv : GoString × JVal} {rest : List (GoString × JVal)}
    {e e₁ : EventData} (hs : step m e kv = Except.ok e₁) :
    loop m (kv :: rest) e = loop m rest e₁ := by
  simp only [loop, hs]

theorem loop_append_ok {m : JMap} {a b : List (GoString × JVal)} {e e' : EventData}
    (h : loop m (a ++ b) e = Except.ok e') :
    ∃ e₁, loop m a e = Except.ok e₁ ∧ loop m b e₁ = Except.ok e' := by
  induction a generalizing e with
  | nil => exact ⟨e, rfl, h⟩
  | cons kv rest ih =>
    obtain ⟨e₁, hs, hl⟩ := loop_cons_ok h
    obtain ⟨e₂, h₁, h₂⟩ := ih hl
    exact ⟨e₂, by rw [loop_cons_of_step hs]; exact h₁, h₂⟩

theorem step_frame {m : JMap} {e e' : EventData} {kv : GoString × JVal}
    (h : step m e kv = Except.ok e') :
    e' = { e with Attr := e'.Attr, UAttr := e'.UAttr } := by
  rcases step_ok_cases h with ⟨_, n, v, t, _, _, _, he⟩ | ⟨_, _, n, v, t, _, _, _, he⟩ |
    ⟨_, _, _, he⟩
  all_goals subst he; rfl

theorem loop_frame {m : JMap} {l : List (GoString × JVal)} {e e' : EventData}
    (h : loop m l e = Except.ok e') :
    e' = { e with Attr := e'.Attr, UAttr := e'.UAttr } := by
  induction l generalizing e with
  | nil =>
    simp only [loop, Except.ok.injEq] at h
    subst h
    rfl
  | cons kv rest ih =>
    obtain ⟨e₁, hs, hl⟩ := loop_cons_ok h
    have h₁ := step_frame hs
    have h₂ := ih hl
    rw [h₂, h₁]

theorem step_ok_indep {m : JMap} {e e' : EventData} {kv : GoString × JVal}
    (h : step m e kv = Except.ok e') (e₀ : EventData) : ∃ e₁, step m e₀ kv = Except.ok e₁ := by
  obtain ⟨k, x⟩ := kv
  rcases step_ok_cases h with ⟨hk, n, v, t, hx, hv, ht, _⟩ | ⟨_, hk, n, v, t, hx, hv, ht, _⟩ |
    ⟨h4, h5, hl, _⟩
  · simp only at hx hk hv ht
    subst hx
    exact ⟨_, step_atrk hk hv ht⟩
  · simp only at hx hk hv ht
    subst hx
    exact ⟨_, step_uatrk hk hv ht⟩
  · exact ⟨_, step_ignored h4 h5 hl⟩

theorem loop_ok_step {m : JMap} {l : List (GoString × JVal)} {e e' : EventData}
    (h : loop m l e = Except.ok e') {kv : GoString × JVal} (hmem : kv ∈ l) (e₀ : EventData) :
    ∃ e₁, step m e₀ kv = Except.ok e₁ := by
  induction l generalizing e with
  | nil => cases hmem
  | cons kv' rest ih =>
    obtain ⟨e₁, hs, hl⟩ := loop_cons_ok h
    rcases List.mem_cons.1 hmem with heq | hin
    · subst heq
      exact step_ok_indep hs e₀
    · exact ih hl hin

theorem loop_ok_of_steps {m : JMap} {l : List (GoString × JVal)}
    (h : ∀ kv ∈ l, ∀ e₀ : EventData, ∃ e₁, step m e₀ kv = Except.ok e₁) (e : EventData) :
    ∃ e', loop m l e = Except.ok e' := by
  induction l generalizing e with
  | nil => exact ⟨e, rfl⟩
  | cons kv rest ih =>
    obtain ⟨e₁, hs⟩ := h kv (List.mem_cons_self _ _) e
    obtain ⟨e', hl⟩ := ih (fun kv' hkv' => h kv' (List.mem_cons_of_mem _ hkv')) e₁
    exact ⟨e', by rw [loop_cons_of_step hs]; exact hl⟩

theorem take_append_atrk (i : GoString) : (bytes "atrk" ++ i).take 4 = bytes "atrk" := by
  rw [bytes_atrk]
  rfl

theorem drop_append_atrk (i : GoString) : (bytes "atrk" ++ i).drop 4 = i := by
  rw [bytes_atrk]
  rfl

theorem take_append_uatrk (i : GoString) : (bytes "uatrk" ++ i).take 5 = bytes "uatrk" := by
  rw [bytes_uatrk]
  rfl

theorem drop_append_uatrk (i : GoString) : (bytes "uatrk" ++ i).drop 5 = i := by
  rw [bytes_uatrk]
  rfl

/-! ## What the loop leaves in the two maps -/

theorem step_attr_other {m : JMap} {e e' : EventData} {kv : GoString × JVal} {n : GoString}
    (h : step m e kv = Except.ok e') (hno : kv.1.take 4 = bytes "atrk" → kv.2 ≠ JVal.str n) :
    e'.Attr.get n = e.Attr.get n := by
  rcases step_ok_cases h with ⟨hk, n', v, t, hx, _, _, he⟩ | ⟨_, _, n', v, t, _, _, _, he⟩ |
    ⟨_, _, _, he⟩
  · subst he
    have hne : n' ≠ n := by
      intro hn
      subst hn
      exact hno hk hx
    exact TraitMap.get_set_ne _ _ hne
  · subst he
    rfl
  · subst he
    rfl

theorem step_uattr_other {m : JMap} {e e' : EventData} {kv : GoString × JVal} {n : GoString}
    (h : step m e kv = Except.ok e') (hno : kv.1.take 5 = bytes "uatrk" → kv.2 ≠ JVal.str n) :
    e'.UAttr.get n = e.UAttr.get n := by
  rcases step_ok_cases h with ⟨_, n', v, t, _, _, _, he⟩ | ⟨_, hk, n', v, t, hx, _, _, he⟩ |
    ⟨_, _, _, he⟩
  · subst he
    rfl
  · subst he
    have hne : n' ≠ n := by
      intro hn
      subst hn
      exact hno hk hx
    exact TraitMap.get_set_ne _ _ hne
  · subst he
    rfl

theorem loop_attr_other {m : JMap} {l : List (GoString × JVal)} {e e' : EventData}
    {n : GoString} (h : loop m l e = Except.ok e')
    (hno : ∀ kv ∈ l, kv.1.take 4 = bytes "atrk" → kv.2 ≠ JVal.str n) :
    e'.Attr.get n = e.Attr.get n := by
  induction l generalizing e with
  | nil =>
    simp only [loop, Except.ok.injEq] at h
    subst h
    rfl
  | cons kv rest ih =>
    obtain ⟨e₁, hs, hl⟩ := loop_cons_ok h
    rw [ih hl (fun kv' hkv' => hno kv' (List.mem_cons_of_mem _ hkv')),
      step_attr_other hs (hno kv (List.mem_cons_self _ _))]

theorem loop_uattr_other {m : JMap} {l : List (GoString × JVal)} {e e' : EventData}
    {n : GoString} (h : loop m l e = Except.ok e')
    (hno : ∀ kv ∈ l, kv.1.take 5 = bytes "uatrk" → kv.2 ≠ JVal.str n) :
    e'.UAttr.get n = e.UAttr.get n := by
  induction l generalizing e with
  | nil =>
    simp only [loop, Except.ok.injEq] at h
    subst h
    rfl
  | cons kv rest ih =>
    obtain ⟨e₁, hs, hl⟩ := loop_cons_ok h
    rw [ih hl (fun kv' hkv' => hno kv' (List.mem_cons_of_mem _ hkv')),
      step_uattr_other hs (hno kv (List.mem_cons_self _ _))]

theorem loop_attr_last {m : JMap} {pre post : List (GoString × JVal)} {k n : GoString}
    {e e' : EventData} (h : loop m (pre ++ (k, JVal.str n) :: post) e = Except.ok e')
    (hk : k.take 4 = bytes "atrk")
    (hno : ∀ kv ∈ post, kv.1.take 4 = bytes "atrk" → kv.2 ≠ JVal.str n) :
    ∃ v t, m.get (bytes "atrv" ++ k.drop 4) = some (JVal.str v) ∧
      m.get (bytes "atrt" ++ k.drop 4) = some (JVal.str t) ∧ e'.Attr.get n = some ⟨v, t⟩ := by
  obtain ⟨e₁, _, h₂⟩ := loop_append_ok h
  obtain ⟨e₂, hs, hl⟩ := loop_cons_ok h₂
  rcases step_ok_cases hs with ⟨_, n', v, t, hx, hv, ht, he⟩ | ⟨h4, _⟩ | ⟨h4, _⟩
  · simp only [JVal.str.injEq] at hx
    subst hx
    refine ⟨v, t, hv, ht, ?_⟩
    rw [loop_attr_other hl hno, he]
    exact TraitMap.get_set_self _ _ _
  · exact absurd hk h4
  · exact absurd hk h4

theorem loop_uattr_last {m : JMap} {pre post : List (GoString × JVal)} {k n : GoString}
    {e e' : EventData} (h : loop m (pre ++ (k, JVal.str n) :: post) e = Except.ok e')
    (hk : k.take 5 = bytes "uatrk")
    (hno : ∀ kv ∈ post, kv.1.take 5 = bytes "uatrk" → kv.2 ≠ JVal.str n) :
    ∃ v t, m.get (bytes "uatrv" ++ k.drop 5) = some (JVal.str v) ∧
      m.get (bytes "uatrt" ++ k.drop 5) = some (JVal.str t) ∧ e'.UAttr.get n = some ⟨v, t⟩ := by
  obtain ⟨e₁, _, h₂⟩ := loop_append_ok h
  obtain ⟨e₂, hs, hl⟩ := loop_cons_ok h₂
  rcases step_ok_cases hs with ⟨h4, _⟩ | ⟨_, _, n', v, t, hx, hv, ht, he⟩ | ⟨_, h5, _⟩
  · exact absurd h4 (not_take4_of_take5 hk)
  · simp only [JVal.str.injEq] at hx
    subst hx
    refine ⟨v, t, hv, ht, ?_⟩
    rw [loop_uattr_other hl hno, he]
    exact TraitMap.get_set_self _ _ _
  · exact absurd hk h5

/-! ## The nine required fields -/

/-- C1: when `UnmarshalJSON` accepts a JSON object, each of the nine scalar fields
of the decoded event is the string the payload holds at the corresponding key
(`Ev` at `ev`, `Et` at `et`, `ID` at `id`, `UID` at `uid`, `MID` at `mid`, `T` at `t`,
`P` at `p`, `L` at `l`, `Sc` at `sc`). -/
theorem unmarshal_scalar_fields (m : JMap) (e : EventData)
    (h : UnmarshalJSON (JVal.obj m) = Except.ok e) :
    m.get (bytes "ev") = some (JVal.str e.Ev) ∧ m.get (bytes "et") = some (JVal.str e.Et) ∧
    m.get (bytes "id") = some (JVal.str e.ID) ∧ m.get (bytes "uid") = some (JVal.str e.UID) ∧
    m.get (bytes "mid") = some (JVal.str e.MID) ∧ m.get (bytes "t") = some (JVal.str e.T) ∧
    m.get (bytes "p") = some (JVal.str e.P) ∧ m.get (bytes "l") = some (JVal.str e.L) ∧
    m.get (bytes "sc") = some (JVal.str e.Sc) := by
  have hd : decodeMap m = Except.ok e := h
  obtain ⟨ev, et, id, uid, mid, t, p, l, sc, h1, h2, h3, h4, h5, h6, h7, h8, h9, hl⟩ :=
    decodeMap_ok hd
  have hf := loop_frame hl
  rw [hf]
  exact ⟨h1, h2, h3, h4, h5, h6, h7, h8, h9⟩

/-- Witness of C1: Scenario A is accepted and its nine scalar fields are the
payload's values. -/
theorem unmarshal_scalar_fields_witness :
    UnmarshalJSON (JVal.obj scenarioA)
        = Except.ok (baseEvent [(bytes "color", ⟨bytes "red", bytes "string"⟩)] []) ∧
    scenarioA.get (bytes "ev") = some (JVal.str (bytes "click")) ∧
    scenarioA.get (bytes "sc") = some (JVal.str (bytes "1920x1080")) :=
  have h := unmarshal_scalar_fields scenarioA
    (baseEvent [(bytes "color", ⟨bytes "red", bytes "string"⟩)] []) (by decide)
  ⟨by decide, h.1, h.2.2.2.2.2.2.2.2⟩

/-- C4: when one of the nine keys `ev, et, id, uid, mid, t, p, l, sc` is absent
from a JSON object or holds a value that is not a string, `UnmarshalJSON` does
not produce an event: it stops at the panic of a failed type assertion. -/
theorem required_field_missing_fails (m : JMap) (k : GoString) (hk : k ∈ requiredKeys)
    (hbad : ∀ s, m.get k ≠ some (JVal.str s)) :
    UnmarshalJSON (JVal.obj m) = Except.error Failure.typeAssertion := by
  show decodeMap m = Except.error Failure.typeAssertion
  rcases decodeMap_cases m with h | ⟨ev, et, id, uid, mid, t, p, l, sc, h1, h2, h3, h4, h5, h6,
    h7, h8, h9, _⟩
  · exact h
  · simp only [requiredKeys, List.mem_cons, List.mem_singleton, List.not_mem_nil, or_false] at hk
    rcases hk with rfl | rfl | rfl | rfl | rfl | rfl | rfl | rfl | rfl
    · exact absurd h1 (hbad _)
    · exact absurd h2 (hbad _)
    · exact absurd h3 (hbad _)
    · exact absurd h4 (hbad _)
    · exact absurd h5 (hbad _)
    · exact absurd h6 (hbad _)
    · exact absurd h7 (hbad _)
    · exact absurd h8 (hbad _)
    · exact absurd h9 (hbad _)

/-- Witness of C4: Scenario A with the number `1` (as a float64) at `uid`. -/
theorem required_field_missing_fails_witness :
    UnmarshalJSON (JVal.obj ((bytes "uid", JVal.num 0x3FF0000000000000) :: scenarioA))
      = Except.error Failure.typeAssertion :=
  required_field_missing_fails _ (bytes "uid") (by decide)
    (by intro s h; simp [JMap.get] at h)

/-- C3: when a JSON object holds a key `atrk<i>` and `atrv<i>` or `atrt<i>` is
absent, `UnmarshalJSON` produces no event, in whatever order the keys are
visited. -/
theorem missing_companion_fails (m : JMap) (i : GoString) (x : JVal)
    (hk : m.get (bytes "atrk" ++ i) = some x)
    (hmiss : m.get (bytes "atrv" ++ i) = none ∨ m.get (bytes "atrt" ++ i) = none) :
    ∃ f, UnmarshalJSON (JVal.obj m) = Except.error f := by
  show ∃ f, decodeMap m = Except.error f
  rcases hd : decodeMap m with f | e
  · exact ⟨f, rfl⟩
  · exfalso
    obtain ⟨ev, et, id, uid, mid, t, p, l, sc, _, _, _, _, _, _, _, _, _, hl⟩ := decodeMap_ok hd
    obtain ⟨e₁, hs⟩ := loop_ok_step hl (JMap.mem_of_get hk) e
    rcases step_ok_cases hs with ⟨_, n, v, t, _, hv, ht, _⟩ | ⟨h4, _⟩ | ⟨h4, _⟩
    · simp only [drop_append_atrk] at hv ht
      rcases hmiss with h | h
      · rw [h] at hv; cases hv
      · rw [h] at ht; cases ht
    · exact h4 (take_append_atrk i)
    · exact h4 (take_append_atrk i)

/-- Witness of C3 (Scenario B): `atrk0` without `atrv0`. -/
theorem missing_companion_fails_witness :
    ∃ f, UnmarshalJSON (JVal.obj (basePayload ++
      [(bytes "atrk0", JVal.str (bytes "color")), (bytes "atrt0", JVal.str (bytes "string"))]))
      = Except.error f :=
  missing_companion_fails _ (bytes "0") (JVal.str (bytes "color")) rfl (Or.inl rfl)

/-! ## Attribute triples -/

/-- C2, as stated, fails: in `collidingPayload` (a map, its keys are distinct)
the keys `atrk0`, `atrv0`, `atrt0` are all present and decoding succeeds, but the
attribute `color` is not `{red, string}`: the triple of index `1`, visited later,
has overwritten it. -/
theorem attribute_of_triple_counterexample :
    (JMap.keys collidingPayload).Nodup ∧
    UnmarshalJSON (JVal.obj collidingPayload)
      = Except.ok (baseEvent [(bytes "color", ⟨bytes "blue", bytes "string"⟩)] []) ∧
    collidingPayload.get (bytes "atrk" ++ bytes "0") = some (JVal.str (bytes "color")) ∧
    collidingPayload.get (bytes "atrv" ++ bytes "0") = some (JVal.str (bytes "red")) ∧
    collidingPayload.get (bytes "atrt" ++ bytes "0") = some (JVal.str (bytes "string")) ∧
    (baseEvent [(bytes "color", ⟨bytes "blue", bytes "string"⟩)] []).Attr.get (bytes "color")
      ≠ some ⟨bytes "red", bytes "string"⟩ :=
  ⟨by decide, by decide, rfl, rfl, rfl, by decide⟩

theorem not_mem_post_of_nodup {pre post : List (GoString × JVal)} {kv : GoString × JVal}
    (hnd : (JMap.keys (pre ++ kv :: post)).Nodup) : ∀ kv' ∈ post, kv'.1 ≠ kv.1 := by
  intro kv' hkv' heq
  simp only [JMap.keys, List.map_append, List.map_cons] at hnd
  have h₂ := (List.nodup_append.1 hnd).2.1
  rw [List.nodup_cons] at h₂
  exact h₂.1 (heq ▸ List.mem_map_of_mem Prod.fst hkv')

/-- C2, amended: when a map with the keys `atrk<i>`, `atrv<i>` and `atrt<i>` all
present decodes successfully, and no other key beginning with `atrk` holds the
same value as `atrk<i>`, then the three values are strings `n`, `v`, `t` and the
decoded `Attr` holds `{Value: v, Type: t}` at `n`. -/
theorem attribute_of_triple (m : JMap) (e : EventData) (i : GoString) (kx vx tx : JVal)
    (hnd : (JMap.keys m).Nodup)
    (h : UnmarshalJSON (JVal.obj m) = Except.ok e)
    (hk : m.get (bytes "atrk" ++ i) = some kx)
    (hv : m.get (bytes "atrv" ++ i) = some vx)
    (ht : m.get (bytes "atrt" ++ i) = some tx)
    (huniq : ∀ kv ∈ m, kv.1.take 4 = bytes "atrk" → kv.2 = kx → kv.1 = bytes "atrk" ++ i) :
    ∃ n v t, kx = JVal.str n ∧ vx = JVal.str v ∧ tx = JVal.str t ∧
      e.Attr.get n = some ⟨v, t⟩ := by
  have hd : decodeMap m = Except.ok e := h
  obtain ⟨ev, et, id, uid, mid, t', p, l, sc, _, _, _, _, _, _, _, _, _, hl⟩ := decodeMap_ok hd
  have hmem := JMap.mem_of_get hk
  obtain ⟨e₁, hs⟩ := loop_ok_step hl hmem e
  rcases step_ok_cases hs with ⟨_, n, v, t, hx, _, _, _⟩ | ⟨h4, _⟩ | ⟨h4, _⟩
  · simp only at hx
    subst hx
    obtain ⟨pre, post, hsplit⟩ := List.append_of_mem hmem
    have hpost := not_mem_post_of_nodup (hsplit ▸ hnd)
    have hno : ∀ kv ∈ post, kv.1.take 4 = bytes "atrk" → kv.2 ≠ JVal.str n := by
      intro kv hkv hpre hval
      have hin : kv ∈ m := by
        rw [hsplit]
        exact List.mem_append_right _ (List.mem_cons_of_mem _ hkv)
      exact hpost kv hkv (huniq kv hin hpre hval)
    have hl' := hl
    rw [hsplit] at hl'
    obtain ⟨v', tt, hv', ht', hget⟩ := loop_attr_last hl' (take_append_atrk i) hno
    rw [← hsplit, drop_append_atrk] at hv' ht'
    rw [hv] at hv'
    rw [ht] at ht'
    cases hv'
    cases ht'
    exact ⟨n, v', tt, rfl, rfl, rfl, hget⟩
  · exact absurd (take_append_atrk i) h4
  · exact absurd (take_append_atrk i) h4

/-- Witness of C2 amended: Scenario A, index token `0`. -/
theorem attribute_of_triple_witness :
    ∃ n v t, JVal.str (bytes "color") = JVal.str n ∧ JVal.str (bytes "red") = JVal.str v ∧
      JVal.str (bytes "string") = JVal.str t ∧
      (baseEvent [(bytes "color", ⟨bytes "red", bytes "string"⟩)] []).Attr.get n
        = some ⟨v, t⟩ :=
  attribute_of_triple scenarioA _ (bytes "0") _ _ _ (by decide) (by decide) rfl rfl rfl
    (by
      intro kv hkv hpre _
      simp only [scenarioA, basePayload, List.cons_append, List.nil_append, List.mem_cons,
        List.mem_singleton, List.not_mem_nil, or_false] at hkv
      rcases hkv with rfl | rfl | rfl | rfl | rfl | rfl | rfl | rfl | rfl | rfl | rfl | rfl <;>
        revert hpre <;> decide)

/-- C8: collisions are resolved last-write-wins.  When a map decodes successfully
while its entries are visited in the order `pre`, then `atrk<i>` with value `n`,
then `post`, and no key beginning with `atrk` in `post` has the value `n`, then
`Attr` holds at `n` the trait `{Value: atrv<i>, Type: atrt<i>}`; likewise for
`uatrk<i>`, `uatrv<i>`, `uatrt<i>` and `UAttr`. -/
theorem last_write_wins (pre post : List (GoString × JVal)) (i n : GoString) (e : EventData) :
    (UnmarshalJSON (JVal.obj (pre ++ (bytes "atrk" ++ i, JVal.str n) :: post)) = Except.ok e →
      (∀ kv ∈ post, kv.1.take 4 = bytes "atrk" → kv.2 ≠ JVal.str n) →
      ∃ v t,
        JMap.get (pre ++ (bytes "atrk" ++ i, JVal.str n) :: post) (bytes "atrv" ++ i)
          = some (JVal.str v) ∧
        JMap.get (pre ++ (bytes "atrk" ++ i, JVal.str n) :: post) (bytes "atrt" ++ i)
          = some (JVal.str t) ∧
        e.Attr.get n = some ⟨v, t⟩) ∧
    (UnmarshalJSON (JVal.obj (pre ++ (bytes "uatrk" ++ i, JVal.str n) :: post)) = Except.ok e →
      (∀ kv ∈ post, kv.1.take 5 = bytes "uatrk" → kv.2 ≠ JVal.str n) →
      ∃ v t,
        JMap.get (pre ++ (bytes "uatrk" ++ i, JVal.str n) :: post) (bytes "uatrv" ++ i)
          = some (JVal.str v) ∧
        JMap.get (pre ++ (bytes "uatrk" ++ i, JVal.str n) :: post) (bytes "uatrt" ++ i)
          = some (JVal.str t) ∧
        e.UAttr.get n = some ⟨v, t⟩) := by
  constructor
  · intro h hno
    have hd : decodeMap (pre ++ (bytes "atrk" ++ i, JVal.str n) :: post) = Except.ok e := h
    obtain ⟨ev, et, id, uid, mid, t', p, l, sc, _, _, _, _, _, _, _, _, _, hl⟩ := decodeMap_ok hd
    have := loop_attr_last hl (take_append_atrk i) hno
    rw [drop_append_atrk] at this
    exact this
  · intro h hno
    have hd : decodeMap (pre ++ (bytes "uatrk" ++ i, JVal.str n) :: post) = Except.ok e := h
    obtain ⟨ev, et, id, uid, mid, t', p, l, sc, _, _, _, _, _, _, _, _, _, hl⟩ := decodeMap_ok hd
    have := loop_uattr_last hl (take_append_uatrk i) hno
    rw [drop_append_uatrk] at this
    exact this

/-- Witness of C8: in `collidingPayload` the key `atrk1` is visited after `atrk0`
and its triple is the one `Attr` holds at `color`; the same with two user-trait
triples that both carry the name `plan`. -/
theorem last_write_wins_witness :
    (∃ v t,
      JMap.get collidingPayload (bytes "atrv" ++ bytes "1") = some (JVal.str v) ∧
      JMap.get collidingPayload (bytes "atrt" ++ bytes "1") = some (JVal.str t) ∧
      (baseEvent [(bytes "color", ⟨bytes "blue", bytes "string"⟩)] []).Attr.get (bytes "color")
        = some ⟨v, t⟩) ∧
    (∃ v t,
      JMap.get collidingUserPayload (bytes "uatrv" ++ bytes "1") = some (JVal.str v) ∧
      JMap.get collidingUserPayload (bytes "uatrt" ++ bytes "1") = some (JVal.str t) ∧
      (baseEvent [] [(bytes "plan", ⟨bytes "pro", bytes "string"⟩)]).UAttr.get (bytes "plan")
        = some ⟨v, t⟩) :=
  ⟨(last_write_wins
      (basePayload ++
        [ (bytes "atrk0", JVal.str (bytes "color")), (bytes "atrv0", JVal.str (bytes "red")),
          (bytes "atrt0", JVal.str (bytes "string")) ])
      [ (bytes "atrv1", JVal.str (bytes "blue")), (bytes "atrt1", JVal.str (bytes "string")) ]
      (bytes "1") (bytes "color")
      (baseEvent [(bytes "color", ⟨bytes "blue", bytes "string"⟩)] [])).1
      (by decide)
      (by
        intro kv hkv hpre _
        simp only [List.mem_cons, List.mem_singleton, List.not_mem_nil, or_false] at hkv
        rcases hkv with rfl | rfl <;> revert hpre <;> decide),
    (last_write_wins
      (basePayload ++
        [ (bytes "uatrk0", JVal.str (bytes "plan")), (bytes "uatrv0", JVal.str (bytes "free")),
          (bytes "uatrt0", JVal.str (bytes "string")) ])
      [ (bytes "uatrv1", JVal.str (bytes "pro")), (bytes "uatrt1", JVal.str (bytes "string")) ]
      (bytes "1") (bytes "plan")
      (baseEvent [] [(bytes "plan", ⟨bytes "pro", bytes "string"⟩)])).2
      (by decide)
      (by
        intro kv hkv hpre _
        simp only [List.mem_cons, List.mem_singleton, List.not_mem_nil, or_false] at hkv
        rcases hkv with rfl | rfl <;> revert hpre <;> decide)⟩

/-! ## Keys of exactly four bytes -/

theorem four_byte_key_fails (m : JMap) (k : GoString) (x : JVal) (hmem : (k, x) ∈ m)
    (hlen : k.length = 4) (hk : k ≠ bytes "atrk") :
    ∃ f, UnmarshalJSON (JVal.obj m) = Except.error f := by
  show ∃ f, decodeMap m = Except.error f
  rcases hd : decodeMap m with f | e
  · exact ⟨f, rfl⟩
  · exfalso
    obtain ⟨ev, et, id, uid, mid, t, p, l, sc, _, _, _, _, _, _, _, _, _, hl⟩ := decodeMap_ok hd
    obtain ⟨e₁, hs⟩ := loop_ok_step hl hmem e
    have h4 : k.take 4 ≠ bytes "atrk" := by
      rw [List.take_of_length_le (le_of_eq hlen)]
      exact hk
    rw [step_len4 h4 hlen] at hs
    cases hs

/-- C5, at a key of exactly four bytes: the nine required fields alone decode, to
an event with two empty maps; with the further key `name` (absent before, it
begins with neither `atrk` nor `uatrk`) holding the string `x`, the slice
expression `key[:5]` is out of bounds and no event is produced. -/
theorem unknown_four_byte_key_panics :
    UnmarshalJSON (JVal.obj basePayload) = Except.ok (baseEvent [] []) ∧
    basePayload.get (bytes "name") = none ∧
    (bytes "name").take 4 ≠ bytes "atrk" ∧ (bytes "name").take 5 ≠ bytes "uatrk" ∧
    UnmarshalJSON (JVal.obj (basePayload ++ [(bytes "name", JVal.str (bytes "x"))]))
      = Except.error Failure.sliceBounds ∧
    UnmarshalJSON (JVal.obj ((bytes "name", JVal.str (bytes "x")) :: basePayload))
      = Except.error Failure.sliceBounds :=
  ⟨by decide, rfl, by decide, by decide, by decide, by decide⟩

/-- C6, at the empty index token: the nine required fields plus `atrk`, `atrv`,
`atrt` do not decode; at the four-byte key `atrv` (or `atrt`) the slice expression
`key[:5]` is out of bounds, in the order written and in the reverse order. -/
theorem empty_index_token_panics :
    UnmarshalJSON (JVal.obj emptyIndexPayload) = Except.error Failure.sliceBounds ∧
    UnmarshalJSON (JVal.obj emptyIndexPayload.reverse) = Except.error Failure.sliceBounds :=
  ⟨by decide, by decide⟩

/-! ## A payload with a single triple -/

theorem loop_ignored {m : JMap} {l : List (GoString × JVal)} (e : EventData)
    (h : ∀ kv ∈ l, ignoredKey kv.1) : loop m l e = Except.ok e := by
  induction l with
  | nil => rfl
  | cons kv rest ih =>
    obtain ⟨h4, h5, hl⟩ := h kv (List.mem_cons_self _ _)
    have hs : step m e kv = Except.ok e := step_ignored h4 h5 hl
    rw [loop_cons_of_step hs]
    exact ih (fun kv' hkv' => h kv' (List.mem_cons_of_mem _ hkv'))

theorem loop_append_of_ok {m : JMap} {a b : List (GoString × JVal)} {e e₁ : EventData}
    (h : loop m a e = Except.ok e₁) : loop m (a ++ b) e = loop m b e₁ := by
  induction a generalizing e with
  | nil =>
    simp only [loop, Except.ok.injEq] at h
    subst h
    rfl
  | cons kv rest ih =>
    obtain ⟨e₂, hs, hl⟩ := loop_cons_ok h
    rw [List.cons_append, loop_cons_of_step hs]
    exact ih hl

theorem ne_key_of_nodup_split {pre post : List (GoString × JVal)} {kv : GoString × JVal}
    (hnd : (JMap.keys (pre ++ kv :: post)).Nodup) : ∀ kv' ∈ pre ++ post, kv'.1 ≠ kv.1 := by
  intro kv' hkv' heq
  simp only [JMap.keys, List.map_append, List.map_cons] at hnd
  have hperm : (List.map Prod.fst pre ++ kv.1 :: List.map Prod.fst post).Perm
      (kv.1 :: (List.map Prod.fst pre ++ List.map Prod.fst post)) := List.perm_middle
  have hnd' := hperm.nodup_iff.1 hnd
  rw [List.nodup_cons, ← List.map_append] at hnd'
  exact hnd'.1 (heq ▸ List.mem_map_of_mem Prod.fst hkv')

theorem ignoredKey_required {k : GoString} (hk : k ∈ requiredKeys) : ignoredKey k := by
  simp only [requiredKeys, List.mem_cons, List.mem_singleton, List.not_mem_nil, or_false] at hk
  rcases hk with rfl | rfl | rfl | rfl | rfl | rfl | rfl | rfl | rfl <;>
    exact ⟨by decide, by decide, by decide⟩

theorem ignoredKey_uatrv (i : GoString) : ignoredKey (bytes "uatrv" ++ i) := by
  refine ⟨?_, ?_, ?_⟩
  · rw [bytes_uatrv, bytes_atrk]
    simp
  · rw [bytes_uatrv, bytes_uatrk]
    simp
  · rw [bytes_uatrv]
    simp

theorem ignoredKey_uatrt (i : GoString) : ignoredKey (bytes "uatrt" ++ i) := by
  refine ⟨?_, ?_, ?_⟩
  · rw [bytes_uatrt, bytes_atrk]
    simp
  · rw [bytes_uatrt, bytes_uatrk]
    simp
  · rw [bytes_uatrt]
    simp

theorem ignoredKey_atrv {i : GoString} (hi : i ≠ []) : ignoredKey (bytes "atrv" ++ i) := by
  refine ⟨?_, ?_, ?_⟩
  · rw [bytes_atrv, bytes_atrk]
    simp
  · rw [bytes_atrv, bytes_uatrk]
    simp
  · rw [bytes_atrv]
    simpa using hi

theorem ignoredKey_atrt {i : GoString} (hi : i ≠ []) : ignoredKey (bytes "atrt" ++ i) := by
  refine ⟨?_, ?_, ?_⟩
  · rw [bytes_atrt, bytes_atrk]
    simp
  · rw [bytes_atrt, bytes_uatrk]
    simp
  · rw [bytes_atrt]
    simpa using hi

theorem userTraitPayload_nodup (d : EventData) (i n v ty : GoString) :
    (JMap.keys (userTraitPayload d i n v ty)).Nodup := by
  apply List.Nodup.of_map (List.take 5)
  have h : List.map (List.take 5) (JMap.keys (userTraitPayload d i n v ty))
      = requiredKeys ++ [bytes "uatrk", bytes "uatrv", bytes "uatrt"] := by
    simp only [userTraitPayload, requiredPayload, JMap.keys, bytes_uatrk, bytes_uatrv,
      bytes_uatrt]
    rfl
  rw [h]
  decide

theorem attributePayload_nodup (d : EventData) (i n v ty : GoString) :
    (JMap.keys (attributePayload d i n v ty)).Nodup := by
  apply List.Nodup.of_map (List.take 4)
  have h : List.map (List.take 4) (JMap.keys (attributePayload d i n v ty))
      = requiredKeys ++ [bytes "atrk", bytes "atrv", bytes "atrt"] := by
    simp only [attributePayload, requiredPayload, JMap.keys, bytes_atrk, bytes_atrv,
      bytes_atrt]
    rfl
  rw [h]
  decide

theorem decode_single {P m : JMap} {d : EventData} {sp : GoString × JVal}
    {f : EventData → EventData} (hperm : m.Perm P) (hnd : (JMap.keys P).Nodup)
    (hreq : ∀ kv ∈ requiredPayload d, kv ∈ P) (hsp : sp ∈ P)
    (hother : ∀ kv ∈ P, kv.1 = sp.1 ∨ ignoredKey kv.1)
    (hstep : ∀ e, step m e sp = Except.ok (f e)) :
    decodeMap m = Except.ok (f { d with Attr := [], UAttr := [] }) := by
  have hndm : (JMap.keys m).Nodup := (hperm.map Prod.fst).nodup_iff.2 hnd
  have hget : ∀ kv ∈ requiredPayload d, m.get kv.1 = some kv.2 := fun kv hkv =>
    JMap.get_of_mem hndm (hperm.symm.subset (hreq kv hkv))
  have hmem : ∀ j : Fin 9, List.get (requiredPayload d) ⟨j.1, j.2⟩ ∈ requiredPayload d :=
    fun j => List.get_mem _ _ _
  rw [decodeMap_of_gets (hget _ (hmem 0)) (hget _ (hmem 1)) (hget _ (hmem 2)) (hget _ (hmem 3))
    (hget _ (hmem 4)) (hget _ (hmem 5)) (hget _ (hmem 6)) (hget _ (hmem 7)) (hget _ (hmem 8))]
  obtain ⟨pre, post, hsplit⟩ := List.append_of_mem (hperm.symm.subset hsp)
  have hne := ne_key_of_nodup_split (hsplit ▸ hndm)
  have hin : ∀ kv ∈ pre ++ post, kv ∈ m := by
    intro kv hkv
    rw [hsplit]
    rcases List.mem_append.1 hkv with h | h
    · exact List.mem_append_left _ h
    · exact List.mem_append_right _ (List.mem_cons_of_mem _ h)
  have hign : ∀ kv ∈ pre ++ post, ignoredKey kv.1 := by
    intro kv hkv
    rcases hother kv (hperm.subset (hin kv hkv)) with h | h
    · exact absurd h (hne kv hkv)
    · exact h
  have hpre : ∀ e, loop m pre e = Except.ok e := fun e =>
    loop_ignored e (fun kv hkv => hign kv (List.mem_append_left _ hkv))
  have hpost : ∀ e, loop m post e = Except.ok e := fun e =>
    loop_ignored e (fun kv hkv => hign kv (List.mem_append_right _ hkv))
  have hl : ∀ e, loop m (pre ++ sp :: post) e = Except.ok (f e) := by
    intro e
    rw [loop_append_of_ok (hpre _), loop_cons_of_step (hstep _), hpost]
  rw [← hsplit] at hl
  exact hl _

theorem userTraitPayload_cases {d : EventData} {i n v ty : GoString} :
    ∀ kv ∈ userTraitPayload d i n v ty, kv.1 = bytes "uatrk" ++ i ∨ ignoredKey kv.1 := by
  intro kv hkv
  simp only [userTraitPayload, requiredPayload, List.cons_append, List.nil_append,
    List.mem_cons, List.mem_singleton, List.not_mem_nil, or_false] at hkv
  rcases hkv with rfl | rfl | rfl | rfl | rfl | rfl | rfl | rfl | rfl | rfl | rfl | rfl
  iterate 9 exact Or.inr (ignoredKey_required (by simp [requiredKeys]))
  · exact Or.inl rfl
  · exact Or.inr (ignoredKey_uatrv i)
  · exact Or.inr (ignoredKey_uatrt i)

theorem attributePayload_cases {d : EventData} {i n v ty : GoString} (hi : i ≠ []) :
    ∀ kv ∈ attributePayload d i n v ty, kv.1 = bytes "atrk" ++ i ∨ ignoredKey kv.1 := by
  intro kv hkv
  simp only [attributePayload, requiredPayload, List.cons_append, List.nil_append,
    List.mem_cons, List.mem_singleton, List.not_mem_nil, or_false] at hkv
  rcases hkv with rfl | rfl | rfl | rfl | rfl | rfl | rfl | rfl | rfl | rfl | rfl | rfl
  iterate 9 exact Or.inr (ignoredKey_required (by simp [requiredKeys]))
  · exact Or.inl rfl
  · exact Or.inr (ignoredKey_atrv hi)
  · exact Or.inr (ignoredKey_atrt hi)

/-- The part of C6 the code does satisfy: with a non-empty index token `i`, the nine
required fields plus `atrk<i> = n`, `atrv<i> = v`, `atrt<i> = ty` decode, in
every visiting order, to `Attr = {n: {v, ty}}` and an empty `UAttr`. -/
theorem attribute_single_of_nonempty_index (d : EventData) (i n v ty : GoString) (m : JMap)
    (hi : i ≠ []) (hperm : m.Perm (attributePayload d i n v ty)) :
    UnmarshalJSON (JVal.obj m) = Except.ok { d with Attr := [(n, ⟨v, ty⟩)], UAttr := [] } := by
  show decodeMap m = _
  have hnd := attributePayload_nodup d i n v ty
  have hndm : (JMap.keys m).Nodup := (hperm.map Prod.fst).nodup_iff.2 hnd
  have hv : m.get (bytes "atrv" ++ i) = some (JVal.str v) :=
    JMap.get_of_mem hndm (hperm.symm.subset (by simp [attributePayload]))
  have ht : m.get (bytes "atrt" ++ i) = some (JVal.str ty) :=
    JMap.get_of_mem hndm (hperm.symm.subset (by simp [attributePayload]))
  have hstep : ∀ e, step m e (bytes "atrk" ++ i, JVal.str n)
      = Except.ok { e with Attr := e.Attr.set n ⟨v, ty⟩ } := by
    intro e
    apply step_atrk (take_append_atrk i)
    · rw [drop_append_atrk]; exact hv
    · rw [drop_append_atrk]; exact ht
  exact decode_single hperm hnd (fun kv hkv => List.mem_append_left _ hkv)
    (by simp [attributePayload]) (attributePayload_cases hi) hstep

/-! ## User traits -/

/-- C7: for every index token `i` (the empty one included), every nine required
string fields (those of `d`) and all strings `n`, `v`, `ty`, the payload made of
the nine required fields plus `uatrk<i> = n`, `uatrv<i> = v`, `uatrt<i> = ty`
decodes, in every visiting order `m` of its entries, to the event with those
scalar fields, `UAttr = {n: {Value: v, Type: ty}}` and an empty `Attr`. -/
theorem user_trait_single (d : EventData) (i n v ty : GoString) (m : JMap)
    (hperm : m.Perm (userTraitPayload d i n v ty)) :
    UnmarshalJSON (JVal.obj m) = Except.ok { d with Attr := [], UAttr := [(n, ⟨v, ty⟩)] } := by
  show decodeMap m = _
  have hnd := userTraitPayload_nodup d i n v ty
  have hndm : (JMap.keys m).Nodup := (hperm.map Prod.fst).nodup_iff.2 hnd
  have hv : m.get (bytes "uatrv" ++ i) = some (JVal.str v) :=
    JMap.get_of_mem hndm (hperm.symm.subset (by simp [userTraitPayload]))
  have ht : m.get (bytes "uatrt" ++ i) = some (JVal.str ty) :=
    JMap.get_of_mem hndm (hperm.symm.subset (by simp [userTraitPayload]))
  have hstep : ∀ e, step m e (bytes "uatrk" ++ i, JVal.str n)
      = Except.ok { e with UAttr := e.UAttr.set n ⟨v, ty⟩ } := by
    intro e
    apply step_uatrk (take_append_uatrk i)
    · rw [drop_append_uatrk]; exact hv
    · rw [drop_append_uatrk]; exact ht
  exact decode_single hperm hnd (fun kv hkv => List.mem_append_left _ hkv)
    (by simp [userTraitPayload]) userTraitPayload_cases hstep

/-- Witness of C7: the empty index token (keys `uatrk`, `uatrv`, `uatrt`), the
entries visited in reverse order. -/
theorem user_trait_single_witness :
    UnmarshalJSON (JVal.obj (userTraitPayload (baseEvent [] []) [] (bytes "plan")
        (bytes "pro") (bytes "string")).reverse)
      = Except.ok (baseEvent [] [(bytes "plan", ⟨bytes "pro", bytes "string"⟩)]) :=
  user_trait_single (baseEvent [] []) [] (bytes "plan") (bytes "pro") (bytes "string") _
    (List.reverse_perm _)

/-! ## Independence of the visiting order -/

theorem step_congr {m₁ m₂ : JMap} (h : ∀ k, m₁.get k = m₂.get k) (e : EventData)
    (kv : GoString × JVal) : step m₁ e kv = step m₂ e kv := by
  unfold step
  simp only [h]

theorem attr_get_of_entry {m : JMap} {e₀ e : EventData} {k n : GoString}
    (hnd : (JMap.keys m).Nodup)
    (hA : ∀ a ∈ m, ∀ b ∈ m, ∀ n, a.1.take 4 = bytes "atrk" → b.1.take 4 = bytes "atrk" →
      a.2 = JVal.str n → b.2 = JVal.str n → a.1 = b.1)
    (hl : loop m m e₀ = Except.ok e) (hmem : (k, JVal.str n) ∈ m)
    (hk : k.take 4 = bytes "atrk") :
    ∃ v t, m.get (bytes "atrv" ++ k.drop 4) = some (JVal.str v) ∧
      m.get (bytes "atrt" ++ k.drop 4) = some (JVal.str t) ∧ e.Attr.get n = some ⟨v, t⟩ := by
  obtain ⟨pre, post, hsplit⟩ := List.append_of_mem hmem
  have hpost := not_mem_post_of_nodup (hsplit ▸ hnd)
  have hno : ∀ kv ∈ post, kv.1.take 4 = bytes "atrk" → kv.2 ≠ JVal.str n := by
    intro kv hkv hpre hval
    have hin : kv ∈ m := by
      rw [hsplit]
      exact List.mem_append_right _ (List.mem_cons_of_mem _ hkv)
    exact hpost kv hkv (hA kv hin (k, JVal.str n) hmem n hpre hk hval rfl)
  have hl' : loop m (pre ++ (k, JVal.str n) :: post) e₀ = Except.ok e := by
    rw [← hsplit]
    exact hl
  exact loop_attr_last hl' hk hno

theorem uattr_get_of_entry {m : JMap} {e₀ e : EventData} {k n : GoString}
    (hnd : (JMap.keys m).Nodup)
    (hU : ∀ a ∈ m, ∀ b ∈ m, ∀ n, a.1.take 5 = bytes "uatrk" → b.1.take 5 = bytes "uatrk" →
      a.2 = JVal.str n → b.2 = JVal.str n → a.1 = b.1)
    (hl : loop m m e₀ = Except.ok e) (hmem : (k, JVal.str n) ∈ m)
    (hk : k.take 5 = bytes "uatrk") :
    ∃ v t, m.get (bytes "uatrv" ++ k.drop 5) = some (JVal.str v) ∧
      m.get (bytes "uatrt" ++ k.drop 5) = some (JVal.str t) ∧ e.UAttr.get n = some ⟨v, t⟩ := by
  obtain ⟨pre, post, hsplit⟩ := List.append_of_mem hmem
  have hpost := not_mem_post_of_nodup (hsplit ▸ hnd)
  have hno : ∀ kv ∈ post, kv.1.take 5 = bytes "uatrk" → kv.2 ≠ JVal.str n := by
    intro kv hkv hpre hval
    have hin : kv ∈ m := by
      rw [hsplit]
      exact List.mem_append_right _ (List.mem_cons_of_mem _ hkv)
    exact hpost kv hkv (hU kv hin (k, JVal.str n) hmem n hpre hk hval rfl)
  have hl' : loop m (pre ++ (k, JVal.str n) :: post) e₀ = Except.ok e := by
    rw [← hsplit]
    exact hl
  exact loop_uattr_last hl' hk hno

theorem decode_perm_ok {m₁ m₂ : JMap} {e₁ : EventData} (hperm : m₁.Perm m₂)
    (hnd : (JMap.keys m₁).Nodup)
    (hA : ∀ a ∈ m₁, ∀ b ∈ m₁, ∀ n, a.1.take 4 = bytes "atrk" → b.1.take 4 = bytes "atrk" →
      a.2 = JVal.str n → b.2 = JVal.str n → a.1 = b.1)
    (hU : ∀ a ∈ m₁, ∀ b ∈ m₁, ∀ n, a.1.take 5 = bytes "uatrk" → b.1.take 5 = bytes "uatrk" →
      a.2 = JVal.str n → b.2 = JVal.str n → a.1 = b.1)
    (h : decodeMap m₁ = Except.ok e₁) :
    ∃ e₂, decodeMap m₂ = Except.ok e₂ ∧ e₁.sameContent e₂ := by
  have hget := JMap.get_perm hperm hnd
  have hnd₂ : (JMap.keys m₂).Nodup := (hperm.map Prod.fst).nodup_iff.1 hnd
  have hA₂ : ∀ a ∈ m₂, ∀ b ∈ m₂, ∀ n, a.1.take 4 = bytes "atrk" → b.1.take 4 = bytes "atrk" →
      a.2 = JVal.str n → b.2 = JVal.str n → a.1 = b.1 :=
    fun a ha b hb => hA a (hperm.symm.subset ha) b (hperm.symm.subset hb)
  have hU₂ : ∀ a ∈ m₂, ∀ b ∈ m₂, ∀ n, a.1.take 5 = bytes "uatrk" →
      b.1.take 5 = bytes "uatrk" → a.2 = JVal.str n → b.2 = JVal.str n → a.1 = b.1 :=
    fun a ha b hb => hU a (hperm.symm.subset ha) b (hperm.symm.subset hb)
  obtain ⟨ev, et, id, uid, mid, t, p, l, sc, h1, h2, h3, h4, h5, h6, h7, h8, h9, hl₁⟩ :=
    decodeMap_ok h
  rw [hget] at h1 h2 h3 h4 h5 h6 h7 h8 h9
  rw [decodeMap_of_gets h1 h2 h3 h4 h5 h6 h7 h8 h9]
  have hsteps : ∀ kv ∈ m₂, ∀ e₀ : EventData, ∃ e', step m₂ e₀ kv = Except.ok e' := by
    intro kv hkv e₀
    obtain ⟨e', hs⟩ := loop_ok_step hl₁ (hperm.symm.subset hkv) e₀
    exact ⟨e', by rw [← step_congr hget]; exact hs⟩
  obtain ⟨e₂, hl₂⟩ := loop_ok_of_steps hsteps
    { Ev := ev, Et := et, ID := id, UID := uid, MID := mid, T := t, P := p, L := l, Sc := sc,
      Attr := [], UAttr := [] }
  refine ⟨e₂, hl₂, ?_⟩
  have hf₁ := loop_frame hl₁
  have hf₂ := loop_frame hl₂
  have hattr : ∀ n, e₁.Attr.get n = e₂.Attr.get n := by
    intro n
    by_cases hex : ∃ kv ∈ m₁, kv.1.take 4 = bytes "atrk" ∧ kv.2 = JVal.str n
    · obtain ⟨⟨k, x⟩, hkv, hk, hx⟩ := hex
      simp only at hk hx
      subst hx
      obtain ⟨v, t, hv, ht, hg⟩ := attr_get_of_entry hnd hA hl₁ hkv hk
      obtain ⟨v', t', hv', ht', hg'⟩ := attr_get_of_entry hnd₂ hA₂ hl₂ (hperm.subset hkv) hk
      rw [hget, hv'] at hv
      rw [hget, ht'] at ht
      cases hv
      cases ht
      rw [hg, hg']
    · have hno₁ : ∀ kv ∈ m₁, kv.1.take 4 = bytes "atrk" → kv.2 ≠ JVal.str n :=
        fun kv hkv hk hx => hex ⟨kv, hkv, hk, hx⟩
      have hno₂ : ∀ kv ∈ m₂, kv.1.take 4 = bytes "atrk" → kv.2 ≠ JVal.str n :=
        fun kv hkv => hno₁ kv (hperm.symm.subset hkv)
      rw [loop_attr_other hl₁ hno₁, loop_attr_other hl₂ hno₂]
  have huattr : ∀ n, e₁.UAttr.get n = e₂.UAttr.get n := by
    intro n
    by_cases hex : ∃ kv ∈ m₁, kv.1.take 5 = bytes "uatrk" ∧ kv.2 = JVal.str n
    · obtain ⟨⟨k, x⟩, hkv, hk, hx⟩ := hex
      simp only at hk hx
      subst hx
      obtain ⟨v, t, hv, ht, hg⟩ := uattr_get_of_entry hnd hU hl₁ hkv hk
      obtain ⟨v', t', hv', ht', hg'⟩ := uattr_get_of_entry hnd₂ hU₂ hl₂ (hperm.subset hkv) hk
      rw [hget, hv'] at hv
      rw [hget, ht'] at ht
      cases hv
      cases ht
      rw [hg, hg']
    · have hno₁ : ∀ kv ∈ m₁, kv.1.take 5 = bytes "uatrk" → kv.2 ≠ JVal.str n :=
        fun kv hkv hk hx => hex ⟨kv, hkv, hk, hx⟩
      have hno₂ : ∀ kv ∈ m₂, kv.1.take 5 = bytes "uatrk" → kv.2 ≠ JVal.str n :=
        fun kv hkv => hno₁ kv (hperm.symm.subset hkv)
      rw [loop_uattr_other hl₁ hno₁, loop_uattr_other hl₂ hno₂]
  rw [hf₁, hf₂]
  exact ⟨rfl, rfl, rfl, rfl, rfl, rfl, rfl, rfl, rfl, hattr, huattr⟩

/-- C9: the outcome of decoding does not depend on the visiting order.  For a map
`m₁` (distinct keys) in which no two keys beginning with `atrk` hold the same
trait name and no two keys beginning with `uatrk` hold the same trait name, and
every other visiting order `m₂` of its entries: when `m₁` decodes to an event,
`m₂` decodes to an event with the same content, and when `m₁` fails, `m₂`
fails. -/
theorem decode_order_independent (m₁ m₂ : JMap) (hperm : m₁.Perm m₂)
    (hnd : (JMap.keys m₁).Nodup)
    (hA : ∀ a ∈ m₁, ∀ b ∈ m₁, ∀ n, a.1.take 4 = bytes "atrk" → b.1.take 4 = bytes "atrk" →
      a.2 = JVal.str n → b.2 = JVal.str n → a.1 = b.1)
    (hU : ∀ a ∈ m₁, ∀ b ∈ m₁, ∀ n, a.1.take 5 = bytes "uatrk" → b.1.take 5 = bytes "uatrk" →
      a.2 = JVal.str n → b.2 = JVal.str n → a.1 = b.1) :
    (∀ e₁, UnmarshalJSON (JVal.obj m₁) = Except.ok e₁ →
      ∃ e₂, UnmarshalJSON (JVal.obj m₂) = Except.ok e₂ ∧ e₁.sameContent e₂) ∧
    (∀ f, UnmarshalJSON (JVal.obj m₁) = Except.error f →
      ∃ f', UnmarshalJSON (JVal.obj m₂) = Except.error f') := by
  constructor
  · intro e₁ h
    exact decode_perm_ok hperm hnd hA hU h
  · intro f h
    show ∃ f', decodeMap m₂ = Except.error f'
    rcases h₂ : decodeMap m₂ with f' | e₂
    · exact ⟨f', rfl⟩
    · exfalso
      have hnd₂ : (JMap.keys m₂).Nodup := (hperm.map Prod.fst).nodup_iff.1 hnd
      obtain ⟨e₁, h₁, _⟩ := decode_perm_ok hperm.symm hnd₂
        (fun a ha b hb => hA a (hperm.symm.subset ha) b (hperm.symm.subset hb))
        (fun a ha b hb => hU a (hperm.symm.subset ha) b (hperm.symm.subset hb)) h₂
      have h' : decodeMap m₁ = Except.error f := h
      rw [h₁] at h'
      cases h'

/-- Witness of C9: Scenario A visited in reverse order and in the order written. -/
theorem decode_order_independent_witness :
    (∀ e₁, UnmarshalJSON (JVal.obj scenarioA.reverse) = Except.ok e₁ →
      ∃ e₂, UnmarshalJSON (JVal.obj scenarioA) = Except.ok e₂ ∧ e₁.sameContent e₂) ∧
    (∀ f, UnmarshalJSON (JVal.obj scenarioA.reverse) = Except.error f →
      ∃ f', UnmarshalJSON (JVal.obj scenarioA) = Except.error f') :=
  have hA : ∀ a ∈ scenarioA.reverse, a.1.take 4 = bytes "atrk" → a.1 = bytes "atrk0" := by
    decide
  have hU : ∀ a ∈ scenarioA.reverse, a.1.take 5 = bytes "uatrk" → a.1 = bytes "uatrk0" := by
    decide
  decode_order_independent scenarioA.reverse scenarioA (List.reverse_perm _) (by decide)
    (fun a ha b hb _ hpa hpb _ _ => (hA a ha hpa).trans (hA b hb hpb).symm)
    (fun a ha b hb _ hpa hpb _ _ => (hU a ha hpa).trans (hU b hb hpb).symm)

/-! ## Unknown keys -/

theorem step_mono {m m' : JMap} (hget : ∀ key y, m.get key = some y → m'.get key = some y)
    {e e' : EventData} {kv : GoString × JVal} (h : step m e kv = Except.ok e') :
    step m' e kv = Except.ok e' := by
  obtain ⟨k, x⟩ := kv
  rcases step_ok_cases h with ⟨hk, n, v, t, hx, hv, ht, he⟩ | ⟨_, hk, n, v, t, hx, hv, ht, he⟩ |
    ⟨h4, h5, hl, he⟩
  · simp only at hx hk hv ht
    subst hx
    subst he
    exact step_atrk hk (hget _ _ hv) (hget _ _ ht)
  · simp only at hx hk hv ht
    subst hx
    subst he
    exact step_uatrk hk (hget _ _ hv) (hget _ _ ht)
  · subst he
    exact step_ignored h4 h5 hl

theorem loop_mono {m m' : JMap} (hget : ∀ key y, m.get key = some y → m'.get key = some y)
    {l : List (GoString × JVal)} {e e' : EventData} (h : loop m l e = Except.ok e') :
    loop m' l e = Except.ok e' := by
  induction l generalizing e with
  | nil => exact h
  | cons kv rest ih =>
    obtain ⟨e₁, hs, hl⟩ := loop_cons_ok h
    rw [loop_cons_of_step (step_mono hget hs)]
    exact ih hl

theorem JMap.get_insert_ne (pre post : JMap) {k key : GoString} (x : JVal) (h : k ≠ key) :
    JMap.get (pre ++ (k, x) :: post) key = JMap.get (pre ++ post) key := by
  induction pre with
  | nil => simp only [List.nil_append, JMap.get, h, if_false]
  | cons p rest ih =>
    obtain ⟨a, v⟩ := p
    simp only [List.cons_append, JMap.get]
    by_cases ha : a = key
    · simp only [ha, if_true]
    · simp only [ha, if_false]
      exact ih

/-- A key that is absent from a map that decodes, begins with neither `atrk` nor
`uatrk` and is not exactly four bytes long can be added, at any place of the
visiting order and with any value, without changing the decoded event. -/
theorem extend_ignored_key (pre post : JMap) (k : GoString) (x : JVal) (e : EventData)
    (habs : k ∉ JMap.keys (pre ++ post)) (hign : ignoredKey k)
    (h : UnmarshalJSON (JVal.obj (pre ++ post)) = Except.ok e) :
    UnmarshalJSON (JVal.obj (pre ++ (k, x) :: post)) = Except.ok e := by
  have hd : decodeMap (pre ++ post) = Except.ok e := h
  show decodeMap (pre ++ (k, x) :: post) = Except.ok e
  have hget : ∀ key y, JMap.get (pre ++ post) key = some y →
      JMap.get (pre ++ (k, x) :: post) key = some y := by
    intro key y hy
    have hne : k ≠ key := by
      intro hk
      subst hk
      exact habs (List.mem_map_of_mem Prod.fst (JMap.mem_of_get hy))
    rw [JMap.get_insert_ne pre post x hne]
    exact hy
  obtain ⟨ev, et, id, uid, mid, t, p, l, sc, h1, h2, h3, h4, h5, h6, h7, h8, h9, hl⟩ :=
    decodeMap_ok hd
  rw [decodeMap_of_gets (hget _ _ h1) (hget _ _ h2) (hget _ _ h3) (hget _ _ h4) (hget _ _ h5)
    (hget _ _ h6) (hget _ _ h7) (hget _ _ h8) (hget _ _ h9)]
  obtain ⟨e₁, hpre, hpost⟩ := loop_append_ok hl
  rw [loop_append_of_ok (loop_mono hget hpre),
    loop_cons_of_step (step_ignored hign.1 hign.2.1 hign.2.2)]
  exact loop_mono hget hpost

/-! ## The outbound transform -/

/-- C10: the `WebhookData` the worker builds from a decoded event `d` carries each
of the nine scalar fields and both maps of `d` unchanged, under the field whose
JSON name is `event`, `event_type`, `app_id`, `user_id`, `message_id`,
`page_title`, `page_url`, `browser_language`, `screen_size`, `attributes`,
`traits` respectively. -/
theorem outbound_pure_rename (d : EventData) :
    (toWebhookData d).Ev = d.Ev ∧ (toWebhookData d).Et = d.Et ∧
    (toWebhookData d).ID = d.ID ∧ (toWebhookData d).UID = d.UID ∧
    (toWebhookData d).MID = d.MID ∧ (toWebhookData d).T = d.T ∧
    (toWebhookData d).P = d.P ∧ (toWebhookData d).L = d.L ∧
    (toWebhookData d).Sc = d.Sc ∧ (toWebhookData d).Attr = d.Attr ∧
    (toWebhookData d).UAttr = d.UAttr :=
  ⟨rfl, rfl, rfl, rfl, rfl, rfl, rfl, rfl, rfl, rfl, rfl⟩

/-! ## Short keys -/

theorem ignoredKey_of_short {k : GoString} (hlen : k.length < 4) : ignoredKey k := by
  refine ⟨?_, ?_, ?_⟩
  · intro h
    exact length_of_take4 h hlen
  · intro h
    exact length_of_take5 h (by omega)
  · omega

/-- C15: a key of fewer than 4 bytes is skipped without error.  When a payload
decodes to the event `e` with its entries visited in the order `pre ++ post`, and
`k` is a key of fewer than 4 bytes absent from it, then the payload extended with
`k` holding any JSON value `x`, visited at any place of that order, decodes to
the same event `e`. -/
theorem short_key_skipped (pre post : JMap) (k : GoString) (x : JVal) (e : EventData)
    (hlen : k.length < 4) (habs : k ∉ JMap.keys (pre ++ post))
    (h : UnmarshalJSON (JVal.obj (pre ++ post)) = Except.ok e) :
    UnmarshalJSON (JVal.obj (pre ++ (k, x) :: post)) = Except.ok e :=
  extend_ignored_key pre post k x e habs (ignoredKey_of_short hlen) h

/-- Witness of C15: Scenario A with the 3-byte key `utm` holding `null`, visited
between the nine required fields and the attribute triple. -/
theorem short_key_skipped_witness :
    UnmarshalJSON (JVal.obj (basePayload ++ (bytes "utm", JVal.null) ::
      [ (bytes "atrk0", JVal.str (bytes "color")), (bytes "atrv0", JVal.str (bytes "red")),
        (bytes "atrt0", JVal.str (bytes "string")) ]))
      = Except.ok (baseEvent [(bytes "color", ⟨bytes "red", bytes "string"⟩)] []) :=
  short_key_skipped basePayload _ (bytes "utm") JVal.null _ (by decide) (by decide) (by decide)

/-! ## Triples with a member that is not a string -/

/-- C18: a trait triple with a non-string member is rejected.  When a payload
holds a key `atrk<i>` and the value of that key is not a string, or `atrv<i>` or
`atrt<i>` is present with a value that is not a string, `UnmarshalJSON`
produces no event, in whatever order the keys are visited; likewise for
`uatrk<i>` with `uatrv<i>` and `uatrt<i>`. -/
theorem non_string_triple_member_fails (m : JMap) (i : GoString) (x : JVal) :
    ((bytes "atrk" ++ i, x) ∈ m →
      ((∀ s, x ≠ JVal.str s) ∨
        (∃ y, m.get (bytes "atrv" ++ i) = some y ∧ ∀ s, y ≠ JVal.str s) ∨
        (∃ y, m.get (bytes "atrt" ++ i) = some y ∧ ∀ s, y ≠ JVal.str s)) →
      ∃ f, UnmarshalJSON (JVal.obj m) = Except.error f) ∧
    ((bytes "uatrk" ++ i, x) ∈ m →
      ((∀ s, x ≠ JVal.str s) ∨
        (∃ y, m.get (bytes "uatrv" ++ i) = some y ∧ ∀ s, y ≠ JVal.str s) ∨
        (∃ y, m.get (bytes "uatrt" ++ i) = some y ∧ ∀ s, y ≠ JVal.str s)) →
      ∃ f, UnmarshalJSON (JVal.obj m) = Except.error f) := by
  constructor
  · intro hmem hbad
    show ∃ f, decodeMap m = Except.error f
    rcases hd : decodeMap m with f | e
    · exact ⟨f, rfl⟩
    · exfalso
      obtain ⟨ev, et, id, uid, mid, t, p, l, sc, _, _, _, _, _, _, _, _, _, hl⟩ :=
        decodeMap_ok hd
      obtain ⟨e₁, hs⟩ := loop_ok_step hl hmem e
      rcases step_ok_cases hs with ⟨_, n, v, ty, hx, hv, ht, _⟩ | ⟨h4, _⟩ | ⟨h4, _⟩
      · simp only [drop_append_atrk] at hv ht
        rcases hbad with hb | ⟨y, hy, hb⟩ | ⟨y, hy, hb⟩
        · exact hb n hx
        · rw [hv] at hy
          cases hy
          exact hb v rfl
        · rw [ht] at hy
          cases hy
          exact hb ty rfl
      · exact h4 (take_append_atrk i)
      · exact h4 (take_append_atrk i)
  · intro hmem hbad
    show ∃ f, decodeMap m = Except.error f
    rcases hd : decodeMap m with f | e
    · exact ⟨f, rfl⟩
    · exfalso
      obtain ⟨ev, et, id, uid, mid, t, p, l, sc, _, _, _, _, _, _, _, _, _, hl⟩ :=
        decodeMap_ok hd
      obtain ⟨e₁, hs⟩ := loop_ok_step hl hmem e
      rcases step_ok_cases hs with ⟨h4, _⟩ | ⟨_, _, n, v, ty, hx, hv, ht, _⟩ | ⟨_, h5, _⟩
      · exact not_take4_of_take5 (take_append_uatrk i) h4
      · simp only [drop_append_uatrk] at hv ht
        rcases hbad with hb | ⟨y, hy, hb⟩ | ⟨y, hy, hb⟩
        · exact hb n hx
        · rw [hv] at hy
          cases hy
          exact hb v rfl
        · rw [ht] at hy
          cases hy
          exact hb ty rfl
      · exact h5 (take_append_uatrk i)

/-- Witness of C18: `atrv0` holds a number; `uatrk0` holds a boolean. -/
theorem non_string_triple_member_fails_witness :
    (∃ f, UnmarshalJSON (JVal.obj numericValuePayload) = Except.error f) ∧
    (∃ f, UnmarshalJSON (JVal.obj booleanNamePayload) = Except.error f) :=
  ⟨(non_string_triple_member_fails numericValuePayload (bytes "0")
      (JVal.str (bytes "color"))).1
      (List.mem_append_right _ (List.Mem.head _))
      (Or.inr (Or.inl ⟨JVal.num 0x401C000000000000, rfl, fun s h => by cases h⟩)),
    (non_string_triple_member_fails booleanNamePayload (bytes "0") (JVal.bool true)).2
      (List.mem_append_right _ (List.Mem.head _))
      (Or.inl (fun s h => by cases h))⟩

/-! ## Where the entries of the two maps come from -/

theorem TraitMap.mem_set {t : TraitMap} {k n : GoString} {v tr : Trait}
    (h : (n, tr) ∈ t.set k v) : (n, tr) = (k, v) ∨ (n, tr) ∈ t := by
  unfold TraitMap.set at h
  rcases List.mem_cons.1 h with h | h
  · exact Or.inl h
  · exact Or.inr (List.mem_filter.1 h).1

theorem atrk_key_eq {k : GoString} (hk : k.take 4 = bytes "atrk") :
    bytes "atrk" ++ k.drop 4 = k := by
  rw [← hk]
  exact List.take_append_drop 4 k

theorem uatrk_key_eq {k : GoString} (hk : k.take 5 = bytes "uatrk") :
    bytes "uatrk" ++ k.drop 5 = k := by
  rw [← hk]
  exact List.take_append_drop 5 k

theorem loop_attr_from {m : JMap} {l : List (GoString × JVal)} {e e' : EventData}
    (hsub : ∀ kv ∈ l, kv ∈ m) (hl : loop m l e = Except.ok e')
    (hinv : ∀ n tr, (n, tr) ∈ e.Attr → ∃ i, (bytes "atrk" ++ i, JVal.str n) ∈ m ∧
      m.get (bytes "atrv" ++ i) = some (JVal.str tr.Value) ∧
      m.get (bytes "atrt" ++ i) = some (JVal.str tr.Typ)) :
    ∀ n tr, (n, tr) ∈ e'.Attr → ∃ i, (bytes "atrk" ++ i, JVal.str n) ∈ m ∧
      m.get (bytes "atrv" ++ i) = some (JVal.str tr.Value) ∧
      m.get (bytes "atrt" ++ i) = some (JVal.str tr.Typ) := by
  induction l generalizing e with
  | nil =>
    simp only [loop, Except.ok.injEq] at hl
    subst hl
    exact hinv
  | cons kv rest ih =>
    obtain ⟨e₁, hs, hrest⟩ := loop_cons_ok hl
    apply ih (fun kv' hkv' => hsub kv' (List.mem_cons_of_mem _ hkv')) hrest
    obtain ⟨k, x⟩ := kv
    have hmem : (k, x) ∈ m := hsub _ (List.mem_cons_self _ _)
    rcases step_ok_cases hs with ⟨hk, n', v, ty, hx, hv, ht, he⟩ | ⟨_, _, n', v, ty, _, _, _, he⟩ |
      ⟨_, _, _, he⟩
    · simp only at hk hx hv ht
      subst hx
      subst he
      intro n tr hin
      rcases TraitMap.mem_set hin with heq | hold
      · cases heq
        refine ⟨k.drop 4, ?_, hv, ht⟩
        rw [atrk_key_eq hk]
        exact hmem
      · exact hinv n tr hold
    · subst he
      exact hinv
    · subst he
      exact hinv

theorem loop_uattr_from {m : JMap} {l : List (GoString × JVal)} {e e' : EventData}
    (hsub : ∀ kv ∈ l, kv ∈ m) (hl : loop m l e = Except.ok e')
    (hinv : ∀ n tr, (n, tr) ∈ e.UAttr → ∃ i, (bytes "uatrk" ++ i, JVal.str n) ∈ m ∧
      m.get (bytes "uatrv" ++ i) = some (JVal.str tr.Value) ∧
      m.get (bytes "uatrt" ++ i) = some (JVal.str tr.Typ)) :
    ∀ n tr, (n, tr) ∈ e'.UAttr → ∃ i, (bytes "uatrk" ++ i, JVal.str n) ∈ m ∧
      m.get (bytes "uatrv" ++ i) = some (JVal.str tr.Value) ∧
      m.get (bytes "uatrt" ++ i) = some (JVal.str tr.Typ) := by
  induction l generalizing e with
  | nil =>
    simp only [loop, Except.ok.injEq] at hl
    subst hl
    exact hinv
  | cons kv rest ih =>
    obtain ⟨e₁, hs, hrest⟩ := loop_cons_ok hl
    apply ih (fun kv' hkv' => hsub kv' (List.mem_cons_of_mem _ hkv')) hrest
    obtain ⟨k, x⟩ := kv
    have hmem : (k, x) ∈ m := hsub _ (List.mem_cons_self _ _)
    rcases step_ok_cases hs with ⟨_, n', v, ty, _, _, _, he⟩ | ⟨_, hk, n', v, ty, hx, hv, ht, he⟩ |
      ⟨_, _, _, he⟩
    · subst he
      exact hinv
    · simp only at hk hx hv ht
      subst hx
      subst he
      intro n tr hin
      rcases TraitMap.mem_set hin with heq | hold
      · cases heq
        refine ⟨k.drop 5, ?_, hv, ht⟩
        rw [uatrk_key_eq hk]
        exact hmem
      · exact hinv n tr hold
    · subst he
      exact hinv

theorem loop_attr_unchanged {m : JMap} {l : List (GoString × JVal)} {e e' : EventData}
    (hno : ∀ kv ∈ l, kv.1.take 4 ≠ bytes "atrk") (hl : loop m l e = Except.ok e') :
    e'.Attr = e.Attr := by
  induction l generalizing e with
  | nil =>
    simp only [loop, Except.ok.injEq] at hl
    subst hl
    rfl
  | cons kv rest ih =>
    obtain ⟨e₁, hs, hrest⟩ := loop_cons_ok hl
    rw [ih (fun kv' hkv' => hno kv' (List.mem_cons_of_mem _ hkv')) hrest]
    rcases step_ok_cases hs with ⟨hk, _⟩ | ⟨_, _, n', v, ty, _, _, _, he⟩ | ⟨_, _, _, he⟩
    · exact absurd hk (hno kv (List.mem_cons_self _ _))
    · subst he
      rfl
    · subst he
      rfl

theorem loop_uattr_unchanged {m : JMap} {l : List (GoString × JVal)} {e e' : EventData}
    (hno : ∀ kv ∈ l, kv.1.take 5 ≠ bytes "uatrk") (hl : loop m l e = Except.ok e') :
    e'.UAttr = e.UAttr := by
  induction l generalizing e with
  | nil =>
    simp only [loop, Except.ok.injEq] at hl
    subst hl
    rfl
  | cons kv rest ih =>
    obtain ⟨e₁, hs, hrest⟩ := loop_cons_ok hl
    rw [ih (fun kv' hkv' => hno kv' (List.mem_cons_of_mem _ hkv')) hrest]
    rcases step_ok_cases hs with ⟨_, n', v, ty, _, _, _, he⟩ | ⟨_, hk, _⟩ | ⟨_, _, _, he⟩
    · subst he
      rfl
    · exact absurd hk (hno kv (List.mem_cons_self _ _))
    · subst he
      rfl

/-- C14: every trait of a decoded event comes from a complete triple of its own
family.  When a payload `m` decodes to `e` (in whatever order its keys are
visited), every entry `n: {v, t}` of `Attr` has an index token `i` with
`atrk<i> = n` in the payload and `atrv<i> = v`, `atrt<i> = t`; every entry of
`UAttr` has likewise an `i` with `uatrk<i> = n`, `uatrv<i> = v`, `uatrt<i> = t`;
without a key beginning with `atrk` the map `Attr` is empty whatever the `uatrk`
keys are, and without a key beginning with `uatrk` the map `UAttr` is empty
whatever the `atrk` keys are. -/
theorem traits_come_from_triples (m : JMap) (e : EventData)
    (h : UnmarshalJSON (JVal.obj m) = Except.ok e) :
    (∀ n tr, (n, tr) ∈ e.Attr → ∃ i, (bytes "atrk" ++ i, JVal.str n) ∈ m ∧
      m.get (bytes "atrv" ++ i) = some (JVal.str tr.Value) ∧
      m.get (bytes "atrt" ++ i) = some (JVal.str tr.Typ)) ∧
    (∀ n tr, (n, tr) ∈ e.UAttr → ∃ i, (bytes "uatrk" ++ i, JVal.str n) ∈ m ∧
      m.get (bytes "uatrv" ++ i) = some (JVal.str tr.Value) ∧
      m.get (bytes "uatrt" ++ i) = some (JVal.str tr.Typ)) ∧
    ((∀ kv ∈ m, kv.1.take 4 ≠ bytes "atrk") → e.Attr = []) ∧
    ((∀ kv ∈ m, kv.1.take 5 ≠ bytes "uatrk") → e.UAttr = []) := by
  have hd : decodeMap m = Except.ok e := h
  obtain ⟨ev, et, id, uid, mid, t, p, l, sc, _, _, _, _, _, _, _, _, _, hl⟩ := decodeMap_ok hd
  refine ⟨?_, ?_, ?_, ?_⟩
  · exact loop_attr_from (fun _ hkv => hkv) hl (fun n tr hin => by cases hin)
  · exact loop_uattr_from (fun _ hkv => hkv) hl (fun n tr hin => by cases hin)
  · intro hno
    exact loop_attr_unchanged hno hl
  · intro hno
    exact loop_uattr_unchanged hno hl

/-- Witness of C14: Scenario A; its one attribute comes from the triple of index
`0`, and it has no key beginning with `uatrk`, so `UAttr` is empty. -/
theorem traits_come_from_triples_witness :
    (∃ i, (bytes "atrk" ++ i, JVal.str (bytes "color")) ∈ scenarioA ∧
      scenarioA.get (bytes "atrv" ++ i) = some (JVal.str (bytes "red")) ∧
      scenarioA.get (bytes "atrt" ++ i) = some (JVal.str (bytes "string"))) ∧
    (baseEvent [(bytes "color", ⟨bytes "red", bytes "string"⟩)] []).UAttr = [] :=
  have h := traits_come_from_triples scenarioA
    (baseEvent [(bytes "color", ⟨bytes "red", bytes "string"⟩)] []) (by decide)
  ⟨h.1 (bytes "color") ⟨bytes "red", bytes "string"⟩ (List.Mem.head _),
    h.2.2.2 (by decide)⟩

/-! ## The worker -/

theorem unmarshalDiscardingError_of_ok {data : JVal} {e : EventData}
    (h : UnmarshalJSON data = Except.ok e) : unmarshalDiscardingError data = Except.ok e := by
  simp only [unmarshalDiscardingError, h]

theorem unmarshalDiscardingError_of_error {data : JVal}
    (h : UnmarshalJSON data = Except.error Failure.unmarshalError) :
    unmarshalDiscardingError data = Except.ok zeroEventData := by
  simp only [unmarshalDiscardingError, h]

theorem unmarshalDiscardingError_of_panic {data : JVal} {f : Failure}
    (h : UnmarshalJSON data = Except.error f) (hf : f ≠ Failure.unmarshalError) :
    unmarshalDiscardingError data = Except.error f := by
  cases f with
  | unmarshalError => exact absurd rfl hf
  | typeAssertion => simp only [unmarshalDiscardingError, h]
  | sliceBounds => simp only [unmarshalDiscardingError, h]

theorem workerItem_of_not_idle {w : Worker} (h : w.status ≠ WorkerStatus.idle) (data : JVal)
    (net : Delivery) : workerItem w data net = w := by
  unfold workerItem
  split
  · rename_i hs
    exact absurd hs h
  · rfl

theorem runWorker_of_not_idle {w : Worker} (h : w.status ≠ WorkerStatus.idle)
    (items : List (JVal × Delivery)) : runWorker w items = w := by
  induction items with
  | nil => rfl
  | cons item rest ih =>
    simp only [runWorker, workerItem_of_not_idle h]
    exact ih

/-- When the decoder panics on an item, the worker ends without handing any
request to `client.Do` for it. -/
theorem workerItem_of_panic {w : Worker} {data : JVal} {f : Failure}
    (hidle : w.status = WorkerStatus.idle) (h : UnmarshalJSON data = Except.error f)
    (hf : f ≠ Failure.unmarshalError) (net : Delivery) :
    workerItem w data net = { w with status := WorkerStatus.panicked f } := by
  unfold workerItem
  simp only [hidle, unmarshalDiscardingError_of_panic h hf]

/-- C11, at a payload that is not a JSON object: on the empty JSON array
`UnmarshalJSON` returns an error, the worker discards it and hands to
`client.Do` a POST whose body is the zero-valued event. -/
theorem non_object_payload_is_posted :
    UnmarshalJSON (JVal.arr []) = Except.error Failure.unmarshalError ∧
    workerItem initialWorker (JVal.arr []) (Delivery.response 200)
      = { status := WorkerStatus.idle, wg := 0, posts := [toWebhookData zeroEventData] } :=
  ⟨by decide, by decide⟩

/-- C12, as stated, fails: when the outbound request of the first item meets a
network error, the worker ends in the state of `log.Fatal`, and the second item,
a valid payload whose request would get a response, is never processed (one
request was handed to `client.Do`, not two). -/
theorem worker_moves_on_counterexample :
    runWorker initialWorker
        [(JVal.obj scenarioA, Delivery.networkError),
          (JVal.obj scenarioA, Delivery.response 200)]
      = { status := WorkerStatus.fatal, wg := 1,
          posts :=
            [toWebhookData (baseEvent [(bytes "color", ⟨bytes "red", bytes "string"⟩)] [])] } ∧
    WorkerStatus.fatal ≠ WorkerStatus.idle :=
  ⟨by decide, by decide⟩

/-- C12, amended: from the Idle state with a positive wait-group counter, an item
whose decoding does not panic (it succeeds, or returns an error the worker
discards) and whose outbound request gets a response, whatever the status
code, leaves the worker Idle with that one request posted; a network error on
the outbound request, or a panic of the decoder, leaves the worker in a
terminal state, and in a terminal state no further item is processed. -/
theorem worker_moves_on (w : Worker) (data : JVal) (net : Delivery)
    (hidle : w.status = WorkerStatus.idle) (hwg : 0 < w.wg) :
    (∀ e code, unmarshalDiscardingError data = Except.ok e → net = Delivery.response code →
      workerItem w data net
        = { status := WorkerStatus.idle, wg := w.wg - 1,
            posts := w.posts ++ [toWebhookData e] }) ∧
    (∀ e, unmarshalDiscardingError data = Except.ok e → net = Delivery.networkError →
      (workerItem w data net).status = WorkerStatus.fatal) ∧
    (∀ f, unmarshalDiscardingError data = Except.error f →
      workerItem w data net = { w with status := WorkerStatus.panicked f }) ∧
    ((workerItem w data net).status ≠ WorkerStatus.idle →
      ∀ items, runWorker (workerItem w data net) items = workerItem w data net) := by
  refine ⟨?_, ?_, ?_, ?_⟩
  · intro e code he hnet
    subst hnet
    unfold workerItem
    simp only [hidle, he, wgDone]
    have hlt : ¬ (w.wg - 1 < 0) := by omega
    simp only [hlt, if_false]
  · intro e he hnet
    subst hnet
    unfold workerItem
    simp only [hidle, he]
  · intro f hf
    unfold workerItem
    simp only [hidle, hf]
  · intro hne items
    exact runWorker_of_not_idle hne items

/-- Witness of C12 amended: the first item of the worker is Scenario A and its
request gets status 503; the worker is Idle again. -/
theorem worker_moves_on_witness :
    workerItem initialWorker (JVal.obj scenarioA) (Delivery.response 503)
      = { status := WorkerStatus.idle, wg := 0,
          posts :=
            [toWebhookData (baseEvent [(bytes "color", ⟨bytes "red", bytes "string"⟩)] [])] } :=
  (worker_moves_on initialWorker (JVal.obj scenarioA) (Delivery.response 503) rfl
    (by decide)).1 _ 503 (by decide) rfl

/-- C17, at two items: two valid payloads, each delivered with status 200.  After
the first the counter is 0; the `wg.Done()` of the second makes it -1 and
panics, both requests having been posted. -/
theorem second_done_panics :
    workerItem initialWorker (JVal.obj scenarioA) (Delivery.response 200)
      = { status := WorkerStatus.idle, wg := 0,
          posts :=
            [toWebhookData (baseEvent [(bytes "color", ⟨bytes "red", bytes "string"⟩)] [])] } ∧
    runWorker initialWorker
        [(JVal.obj scenarioA, Delivery.response 200),
          (JVal.obj scenarioA, Delivery.response 200)]
      = { status := WorkerStatus.negativeCounter, wg := -1,
          posts :=
            [toWebhookData (baseEvent [(bytes "color", ⟨bytes "red", bytes "string"⟩)] []),
              toWebhookData (baseEvent [(bytes "color", ⟨bytes "red", bytes "string"⟩)] [])] } :=
  ⟨by decide, by decide⟩

/-! ## The handler -/

/-- C13: the handler has two outcomes.  When `BodyParser` fails it answers 400
with the body `{"error": "Cannot parse JSON"}` and sends nothing on the
channel; when `BodyParser` succeeds it answers 200 and sends the parsed value,
once, behind what the channel already holds, whether or not that value can
be decoded. -/
theorem receiveJson_hand_off (queue : List JVal) :
    ((receiveJson none queue).1.status = 400 ∧
      (receiveJson none queue).1.body
        = some (JVal.obj [(bytes "error", JVal.str (bytes "Cannot parse JSON"))]) ∧
      (receiveJson none queue).2 = queue) ∧
    (∀ jsonData, (receiveJson (some jsonData) queue).1.status = 200 ∧
      (receiveJson (some jsonData) queue).2 = queue ++ [jsonData]) :=
  ⟨⟨rfl, rfl, rfl⟩, fun _ => ⟨rfl, rfl⟩⟩

/-! ## The outbound wire format -/

theorem coerceUTF8From_of_valid (k : Nat) (s : GoString) (h : validUTF8From k s = true) :
    coerceUTF8From k s = s := by
  induction s generalizing k with
  | nil => cases k <;> rfl
  | cons b rest ih =>
    cases k with
    | succ k =>
      simp only [validUTF8From] at h
      simp only [coerceUTF8From]
      rw [ih k h]
    | zero =>
      simp only [validUTF8From, Bool.and_eq_true, decide_eq_true_eq] at h
      simp only [coerceUTF8From, h.1, if_false]
      rw [ih _ h.2]

theorem coerceUTF8_of_valid {s : GoString} (h : validUTF8 s = true) : coerceUTF8 s = s :=
  coerceUTF8From_of_valid 0 s h

theorem parseTrait_marshalTrait {t : Trait} (hv : validUTF8 t.Value = true)
    (ht : validUTF8 t.Typ = true) : parseTrait (marshalTrait t) = some t := by
  unfold marshalTrait marshalString
  rw [coerceUTF8_of_valid hv, coerceUTF8_of_valid ht]
  rfl

theorem parseTraitEntries_marshal (l : TraitMap)
    (h : ∀ p ∈ l, validUTF8 p.1 = true ∧ validUTF8 p.2.Value = true ∧ validUTF8 p.2.Typ = true) :
    parseTraitEntries (l.map (fun p => (coerceUTF8 p.1, marshalTrait p.2))) = some l := by
  induction l with
  | nil => rfl
  | cons p rest ih =>
    obtain ⟨hk, hv, ht⟩ := h p (List.mem_cons_self _ _)
    simp only [List.map_cons, parseTraitEntries, parseTrait_marshalTrait hv ht,
      ih (fun q hq => h q (List.mem_cons_of_mem _ hq)), coerceUTF8_of_valid hk]

theorem parseTraitMap_marshalTraitMap (isNil : Bool) (t : TraitMap)
    (hnil : isNil = true → t = [])
    (h : ∀ p ∈ t, validUTF8 p.1 = true ∧ validUTF8 p.2.Value = true ∧ validUTF8 p.2.Typ = true) :
    ∃ r, parseTraitMap (some (marshalTraitMap isNil t)) = some r ∧ r.Perm t := by
  cases isNil with
  | true =>
    rw [hnil rfl]
    exact ⟨[], rfl, List.Perm.refl _⟩
  | false =>
    have hperm : (sortByKey t).Perm t := List.perm_insertionSort _ t
    refine ⟨sortByKey t, ?_, hperm⟩
    exact parseTraitEntries_marshal (sortByKey t) (fun p hp => h p (hperm.subset hp))

/-- C16, as stated, fails: the `WebhookData` whose `Ev` is the single byte `0xFF`
is written with U+FFFD in its place, and parsing the body back gives that
replacement, not the field value. -/
theorem outbound_round_trip_counterexample :
    parseWebhookData (marshalWebhookData false false invalidUTF8Event)
      = some { invalidUTF8Event with Ev := [0xEF, 0xBF, 0xBD] } ∧
    parseWebhookData (marshalWebhookData false false invalidUTF8Event)
      ≠ some invalidUTF8Event :=
  ⟨by decide, by decide⟩

/-- C16, amended: round trip of the outbound wire format on valid UTF-8.  For
every `WebhookData` `w` whose strings are all valid UTF-8, with each of its two
maps nil (then without entries) or made, the JSON value written under the
member names `event`, `event_type`, `app_id`, `user_id`, `message_id`,
`page_title`, `page_url`, `browser_language`, `screen_size`, `attributes`,
`traits` (each trait as `{value, type}`), parsed back against that schema,
gives the nine strings of `w` and two maps with the entries of those of `w`. -/
theorem outbound_round_trip (w : WebhookData) (attrNil uattrNil : Bool)
    (hA : attrNil = true → w.Attr = []) (hU : uattrNil = true → w.UAttr = [])
    (hvalid : w.validStrings) :
    ∃ r, parseWebhookData (marshalWebhookData attrNil uattrNil w) = some r ∧
      r.Ev = w.Ev ∧ r.Et = w.Et ∧ r.ID = w.ID ∧ r.UID = w.UID ∧ r.MID = w.MID ∧ r.T = w.T ∧
      r.P = w.P ∧ r.L = w.L ∧ r.Sc = w.Sc ∧ r.Attr.Perm w.Attr ∧ r.UAttr.Perm w.UAttr := by
  obtain ⟨h1, h2, h3, h4, h5, h6, h7, h8, h9, hattr, huattr⟩ := hvalid
  obtain ⟨a, hpa, hperma⟩ := parseTraitMap_marshalTraitMap attrNil w.Attr hA hattr
  obtain ⟨u, hpu, hpermu⟩ := parseTraitMap_marshalTraitMap uattrNil w.UAttr hU huattr
  refine ⟨{ Ev := w.Ev, Et := w.Et, ID := w.ID, UID := w.UID, MID := w.MID, T := w.T, P := w.P,
            L := w.L, Sc := w.Sc, Attr := a, UAttr := u }, ?_, rfl, rfl, rfl, rfl, rfl, rfl,
    rfl, rfl, rfl, hperma, hpermu⟩
  have ha : JMap.get
      [ (bytes "event", JVal.str w.Ev), (bytes "event_type", JVal.str w.Et),
        (bytes "app_id", JVal.str w.ID), (bytes "user_id", JVal.str w.UID),
        (bytes "message_id", JVal.str w.MID), (bytes "page_title", JVal.str w.T),
        (bytes "page_url", JVal.str w.P), (bytes "browser_language", JVal.str w.L),
        (bytes "screen_size", JVal.str w.Sc),
        (bytes "attributes", marshalTraitMap attrNil w.Attr),
        (bytes "traits", marshalTraitMap uattrNil w.UAttr) ] (bytes "attributes")
      = some (marshalTraitMap attrNil w.Attr) := rfl
  have hu : JMap.get
      [ (bytes "event", JVal.str w.Ev), (bytes "event_type", JVal.str w.Et),
        (bytes "app_id", JVal.str w.ID), (bytes "user_id", JVal.str w.UID),
        (bytes "message_id", JVal.str w.MID), (bytes "page_title", JVal.str w.T),
        (bytes "page_url", JVal.str w.P), (bytes "browser_language", JVal.str w.L),
        (bytes "screen_size", JVal.str w.Sc),
        (bytes "attributes", marshalTraitMap attrNil w.Attr),
        (bytes "traits", marshalTraitMap uattrNil w.UAttr) ] (bytes "traits")
      = some (marshalTraitMap uattrNil w.UAttr) := rfl
  unfold marshalWebhookData parseWebhookData marshalString
  simp only [coerceUTF8_of_valid h1, coerceUTF8_of_valid h2, coerceUTF8_of_valid h3,
    coerceUTF8_of_valid h4, coerceUTF8_of_valid h5, coerceUTF8_of_valid h6,
    coerceUTF8_of_valid h7, coerceUTF8_of_valid h8, coerceUTF8_of_valid h9, ha, hu, hpa, hpu]
  rfl

/-- The body the worker posts for the zero-valued event: nine empty strings, and
`null` at `attributes` and at `traits`. -/
theorem zero_event_body :
    marshalWebhookData true true (toWebhookData zeroEventData)
      = JVal.obj
          [ (bytes "event", JVal.str []), (bytes "event_type", JVal.str []),
            (bytes "app_id", JVal.str []), (bytes "user_id", JVal.str []),
            (bytes "message_id", JVal.str []), (bytes "page_title", JVal.str []),
            (bytes "page_url", JVal.str []), (bytes "browser_language", JVal.str []),
            (bytes "screen_size", JVal.str []), (bytes "attributes", JVal.null),
            (bytes "traits", JVal.null) ] :=
  rfl

/-- Witness of C16 amended: the body of Scenario A, whose maps are made, and the
body the worker posts for the zero-valued event, whose maps are nil and written
`null`. -/
theorem outbound_round_trip_witness :
    (∃ r, parseWebhookData (marshalWebhookData false false
        (toWebhookData (baseEvent [(bytes "color", ⟨bytes "red", bytes "string"⟩)] [])))
        = some r ∧
      r.Ev = bytes "click" ∧ r.Et = bytes "ui" ∧ r.ID = bytes "a1" ∧ r.UID = bytes "u1" ∧
      r.MID = bytes "m1" ∧ r.T = bytes "Home" ∧ r.P = bytes "http://x" ∧ r.L = bytes "en" ∧
      r.Sc = bytes "1920x1080" ∧
      r.Attr.Perm [(bytes "color", ⟨bytes "red", bytes "string"⟩)] ∧ r.UAttr.Perm []) ∧
    (∃ r, parseWebhookData (marshalWebhookData true true (toWebhookData zeroEventData))
        = some r ∧
      r.Ev = [] ∧ r.Et = [] ∧ r.ID = [] ∧ r.UID = [] ∧ r.MID = [] ∧ r.T = [] ∧
      r.P = [] ∧ r.L = [] ∧ r.Sc = [] ∧ r.Attr.Perm [] ∧ r.UAttr.Perm []) :=
  ⟨outbound_round_trip
      (toWebhookData (baseEvent [(bytes "color", ⟨bytes "red", bytes "string"⟩)] []))
      false false (fun h => by cases h) (fun h => by cases h)
      (by unfold WebhookData.validStrings; decide),
    outbound_round_trip (toWebhookData zeroEventData) true true (fun _ => rfl) (fun _ => rfl)
      (by unfold WebhookData.validStrings; decide)⟩

end GoInterview
